import Mathlib

/-!
# The table-driven scanner / shift-reduce engine of `calculator.cpp`

A shallow embedding of `Calculator::start`, `scan`, `scan_end`, `advance`,
`push` and `pop`, of the scan function `scan_num` and of the reduce actions.

* `std::vector` stacks are lists in vector order: `push_back x` is `xs ++ [x]`,
  `pop_back` is `dropLast`, `back()` is `getLast?`, `front()` is `head?`.
* A `Value*` is an `Option Val`; `none` is `nullptr`.
* The table accessors (`node_next`, `node_accept`, `node_scan`, `find_shift`,
  `find_reduce`, `rule_nonterm`, `find_goto`) are only declared in the source;
  they are the fields of `Tables`.
* The `Table*` context is passed in and returned by everything that may write it.
* A call has an outcome of type `Run`: it returns, it lets a C++ exception
  escape, its behaviour is undefined, or the loop bound of the model ran out.
-/

namespace Calc

/-- Outcome of a call. -/
inductive Run (α : Type) where
  /-- the call returns normally -/
  | ret (a : α) : Run α
  /-- a C++ exception propagates out of the call -/
  | raise : Run α
  /-- undefined behaviour: `back()`/`front()`/`pop_back()` on an empty vector,
      a null or wrongly typed payload dereferenced, signed overflow -/
  | undefined : Run α
  /-- the loop bound (fuel) of the model is exhausted -/
  | timeout : Run α
  deriving DecidableEq, Repr

/-- Sequencing of calls: the first outcome that is not a normal return ends the run. -/
def Run.bind {α β : Type} (x : Run α) (f : α → Run β) : Run β :=
  match x with
  | .ret a => f a
  | .raise => .raise
  | .undefined => .undefined
  | .timeout => .timeout

/-- The externally supplied tables: token automaton, parse automaton, rules. -/
structure Tables (Node State Symbol Rule Val Ctx : Type) where
  /-- `node0`, the initial node of the token automaton -/
  node0 : Node
  /-- `state0`, the initial state of the parse automaton -/
  state0 : State
  /-- `endmark`, the end-marker symbol -/
  endmark : Symbol
  /-- `node_next(node, c)`; `none` is a null result -/
  node_next : Node → Char → Option Node
  /-- `node_accept(node)`; `none` is a null result -/
  node_accept : Node → Option Symbol
  /-- `node_scan(node, table, text)` -/
  node_scan : Node → Ctx → List Char → Run (Option Val × Ctx)
  /-- `find_shift(state, sym)`; `none` is a null result -/
  find_shift : State → Symbol → Option State
  /-- `find_reduce(state, sym, &accept)`; `none` is a null result, otherwise
      the rule together with the value stored in `accept` -/
  find_reduce : State → Symbol → Option (Rule × Bool)
  /-- `rule_nonterm(rule, &length)`: the nonterminal and the value stored in `length` -/
  rule_nonterm : Rule → Symbol × Nat
  /-- the semantic action of a rule, applied to the context and the rule's
      `length` value slots, bottom-to-top -/
  action : Rule → Ctx → List (Option Val) → Run (Option Val × Ctx)
  /-- `find_goto(state, sym)`; the result is pushed unchecked -/
  find_goto : State → Symbol → State

/-- The members of `Calculator` that the engine reads and writes. -/
structure Calculator (Node State Symbol Val : Type) where
  states : List State
  symbols : List Symbol
  values : List (Option Val)
  node : Node
  text : List Char
  deriving DecidableEq, Repr

variable {Node State Symbol Rule Val Ctx : Type}

/-- `Calculator::start`. -/
def start (T : Tables Node State Symbol Rule Val Ctx)
    (_s : Calculator Node State Symbol Val) : Calculator Node State Symbol Val :=
  { states := [T.state0]
    symbols := []
    values := []
    node := T.node0
    text := [] }

/-- `Calculator::push`. -/
def push (state : State) (sym : Symbol) (val : Option Val)
    (s : Calculator Node State Symbol Val) : Calculator Node State Symbol Val :=
  { s with
    states := s.states ++ [state]
    symbols := s.symbols ++ [sym]
    values := s.values ++ [val] }

/-- `Calculator::pop`: `count` rounds of `pop_back` on the three vectors;
`pop_back` on an empty vector is undefined. -/
def pop : Nat → Calculator Node State Symbol Val → Run (Calculator Node State Symbol Val)
  | 0, s => .ret s
  | count + 1, s =>
    if s.states.isEmpty || s.symbols.isEmpty || s.values.isEmpty then .undefined
    else pop count
      { s with
        states := s.states.dropLast
        symbols := s.symbols.dropLast
        values := s.values.dropLast }

/-- Modelled from the spec: `rule_reduce(rule, table, values.data() + values.size())`
is only declared in the source. By the interface contract a rule's semantic
action takes the context and `Value[arity]`; the pointer it is given is one past
the top of the value stack, so the slots it reads are the `length` values
that end there, in bottom-to-top order. With fewer than `length` values on the stack
the read is out of bounds. -/
def rule_reduce (T : Tables Node State Symbol Rule Val Ctx) (rule : Rule) (table : Ctx)
    (values : List (Option Val)) : Run (Option Val × Ctx) :=
  if (T.rule_nonterm rule).2 ≤ values.length then
    T.action rule table (values.drop (values.length - (T.rule_nonterm rule).2))
  else .undefined

/-- One pass through the body of the `while (true)` loop of `Calculator::advance`.
The first component is `some b` when the pass executes `return b`, and `none`
when control reaches the end of the body and the loop goes round again. -/
def advance_body (T : Tables Node State Symbol Rule Val Ctx) (table : Ctx)
    (sym : Symbol) (val : Option Val) (s : Calculator Node State Symbol Val) :
    Run (Option Bool × Calculator Node State Symbol Val × Ctx) :=
  match s.states.getLast? with
  | none => .undefined
  | some top =>
    match T.find_shift top sym with
    | some next => .ret (some true, push next sym val s, table)
    | none =>
      match T.find_reduce top sym with
      | none => .ret (some false, s, table)
      | some (rule, accept) =>
        (rule_reduce T rule table s.values).bind fun r =>
        (pop (T.rule_nonterm rule).2 s).bind fun s1 =>
        match s1.states.getLast? with
        | none => .undefined
        | some base =>
          .ret (if accept then some true else none,
                push (T.find_goto base (T.rule_nonterm rule).1) (T.rule_nonterm rule).1 r.1 s1,
                r.2)

/-- `Calculator::advance`; `fuel` bounds the number of passes through the loop. -/
def advance (T : Tables Node State Symbol Rule Val Ctx) :
    Nat → Ctx → Symbol → Option Val → Calculator Node State Symbol Val →
    Run (Bool × Calculator Node State Symbol Val × Ctx)
  | 0, _, _, _, _ => .timeout
  | fuel + 1, table, sym, val, s =>
    (advance_body T table sym val s).bind fun r =>
    match r.1 with
    | some b => .ret (b, r.2.1, r.2.2)
    | none => advance T fuel r.2.2 sym val r.2.1

/-- `isspace` in the "C" locale: space, `\t`, `\n`, `\v`, `\f`, `\r`. -/
def isspace (c : Char) : Bool :=
  c.toNat = 32 || (9 ≤ c.toNat && c.toNat ≤ 13)

/-- `Calculator::scan`; `fuel` bounds the passes through its loop and the
loop of each `advance` it calls. -/
def scan [DecidableEq Node] (T : Tables Node State Symbol Rule Val Ctx) :
    Nat → Ctx → Char → Calculator Node State Symbol Val →
    Run (Bool × Calculator Node State Symbol Val × Ctx)
  | 0, _, _, _ => .timeout
  | fuel + 1, table, c, s =>
    if s.node = T.node0 ∧ isspace c = true then .ret (true, s, table)
    else
      match T.node_next s.node c with
      | some next => .ret (true, { s with text := s.text ++ [c], node := next }, table)
      | none =>
        match T.node_accept s.node with
        | none => .ret (false, s, table)
        | some acc =>
          (T.node_scan s.node table s.text).bind fun v =>
          (advance T fuel v.2 acc v.1 s).bind fun r =>
          if r.1 = true then
            scan T fuel r.2.2 c { r.2.1 with node := T.node0, text := [] }
          else .ret (false, r.2.1, r.2.2)

/-- The tail of `Calculator::scan_end`: the end-marker is advanced with a null
value and `values.front()` is returned; `none` is the null result. -/
def scan_end_mark (T : Tables Node State Symbol Rule Val Ctx) (fuel : Nat) (table : Ctx)
    (s : Calculator Node State Symbol Val) :
    Run (Option Val × Calculator Node State Symbol Val × Ctx) :=
  (advance T fuel table T.endmark none s).bind fun r =>
  if r.1 = true then
    match r.2.1.values.head? with
    | none => .undefined
    | some front => .ret (front, r.2.1, r.2.2)
  else .ret (none, r.2.1, r.2.2)

/-- `Calculator::scan_end`; the result `none` is the null `unique_ptr`. -/
def scan_end [DecidableEq Node] (T : Tables Node State Symbol Rule Val Ctx) (fuel : Nat)
    (table : Ctx) (s : Calculator Node State Symbol Val) :
    Run (Option Val × Calculator Node State Symbol Val × Ctx) :=
  match T.node_accept s.node with
  | some accept =>
    (T.node_scan s.node table s.text).bind fun v =>
    (advance T fuel v.2 accept v.1 s).bind fun r =>
    if r.1 = true then scan_end_mark T fuel r.2.2 r.2.1
    else .ret (none, r.2.1, r.2.2)
  | none =>
    if s.node ≠ T.node0 then .ret (none, s, table)
    else scan_end_mark T fuel table s

/-- The `while (true)` loop of `main`: every character is passed to `scan`, a
`false` result ends the run with failure (here the null result), and at the end
of the input `scan_end` gives the result. -/
def main_loop [DecidableEq Node] (T : Tables Node State Symbol Rule Val Ctx) (fuel : Nat) :
    List Char → Ctx → Calculator Node State Symbol Val →
    Run (Option Val × Calculator Node State Symbol Val × Ctx)
  | [], table, s => scan_end T fuel table s
  | c :: rest, table, s =>
    (scan T fuel table c s).bind fun r =>
    if r.1 = true then main_loop T fuel rest r.2.2 r.2.1
    else .ret (none, r.2.1, r.2.2)

/-- The run of `main` on the engine `s`: `start()`, then the loop over `input`. -/
def main_run [DecidableEq Node] (T : Tables Node State Symbol Rule Val Ctx) (fuel : Nat)
    (input : List Char) (table : Ctx) (s : Calculator Node State Symbol Val) :
    Run (Option Val × Calculator Node State Symbol Val × Ctx) :=
  main_loop T fuel input table (start T s)

/-! ## The calculator's payloads, context, scan function and reduce actions -/

/-- Modelled from the spec: the classes `Num` and `Ident` are declared in
`calculator.hpp`, which is not among the sources; their use shows a `Num` with
an `int value` and an `Ident` with a `std::string name`, both kinds of `Value`. -/
inductive Value where
  | Num (value : Int) : Value
  | Ident (name : List Char) : Value
  deriving DecidableEq, Repr

/-- Modelled from the spec: `Table` is declared in `calculator.hpp`, which is not
among the sources; its use shows the members `vars`, a `std::map` from names to
`int`, kept here as an association list, and the flag `done`. -/
structure Table where
  vars : List (List Char × Int)
  done : Bool
  deriving DecidableEq, Repr

/-- Smallest value of a 32-bit `int`. -/
def INT_MIN : Int := -2147483648

/-- Largest value of a 32-bit `int`. -/
def INT_MAX : Int := 2147483647

/-- Result of a signed `int` operation: overflow is undefined. -/
def int_result (z : Int) : Run Int :=
  if INT_MIN ≤ z ∧ z ≤ INT_MAX then .ret z else .undefined

/-- `std::stoi(text)` in base 10: leading white space is skipped, an optional
sign is read, then the longest run of decimal digits. Without a digit it throws
`std::invalid_argument`, with a value outside `int` it throws `std::out_of_range`. -/
def stoi (text : List Char) : Run Int :=
  let t := text.dropWhile isspace
  let neg := t.head? = some '-'
  let t1 := if t.head? = some '-' ∨ t.head? = some '+' then t.tail else t
  let digits := t1.takeWhile Char.isDigit
  let n : Int := digits.foldl (fun a d => 10 * a + ((d.toNat - 48 : Nat) : Int)) 0
  if digits = [] then .raise
  else if INT_MIN ≤ (if neg then -n else n) ∧ (if neg then -n else n) ≤ INT_MAX then
    .ret (if neg then -n else n)
  else .raise

/-- `scan_num`. -/
def scan_num (table : Table) (text : List Char) : Run (Option Value × Table) :=
  (stoi text).bind fun n => .ret (some (Value.Num n), table)

/-- `reduce_total`: the slot is moved out, nothing is dereferenced. -/
def reduce_total (table : Table) (E1 : Option Value) : Run (Option Value × Table) :=
  .ret (E1, table)

/-- `reduce_line`. -/
def reduce_line (table : Table) (E1 : Option Value) : Run (Option Value × Table) :=
  .ret (E1, table)

/-- `reduce_paren`. -/
def reduce_paren (table : Table) (E1 : Option Value) : Run (Option Value × Table) :=
  .ret (E1, table)

/-- `reduce_add_mul`: both slots are dereferenced as `Num`. -/
def reduce_add_mul (table : Table) (E1 E2 : Option Value) : Run (Option Value × Table) :=
  match E1, E2 with
  | some (Value.Num a), some (Value.Num b) =>
    (int_result (a + b)).bind fun z => .ret (some (Value.Num z), table)
  | _, _ => .undefined

/-- `reduce_sub_mul`. -/
def reduce_sub_mul (table : Table) (E1 E2 : Option Value) : Run (Option Value × Table) :=
  match E1, E2 with
  | some (Value.Num a), some (Value.Num b) =>
    (int_result (a - b)).bind fun z => .ret (some (Value.Num z), table)
  | _, _ => .undefined

/-- `reduce_mul_int`. -/
def reduce_mul_int (table : Table) (E1 E2 : Option Value) : Run (Option Value × Table) :=
  match E1, E2 with
  | some (Value.Num a), some (Value.Num b) =>
    (int_result (a * b)).bind fun z => .ret (some (Value.Num z), table)
  | _, _ => .undefined

/-- `scan_ident`. -/
def scan_ident (table : Table) (text : List Char) : Run (Option Value × Table) :=
  .ret (some (Value.Ident text), table)

/-- `std::map::find` on `vars`: the value bound to `name`, if any. -/
def vars_find (vars : List (List Char × Int)) (name : List Char) : Option Int :=
  match vars with
  | [] => none
  | (k, v) :: rest => if k = name then some v else vars_find rest name

/-- The map after `vars[name] = value`: the binding of `name` is replaced, or
added when there is none; no other binding changes. -/
def vars_set (vars : List (List Char × Int)) (name : List Char) (value : Int) :
    List (List Char × Int) :=
  match vars with
  | [] => [(name, value)]
  | (k, v) :: rest =>
    if k = name then (k, value) :: rest else (k, v) :: vars_set rest name value

/-- `vars[name]` as an rvalue: the bound value and the map unchanged, or, when
`name` has no binding, 0 and the map with the value-initialised binding added. -/
def vars_index (vars : List (List Char × Int)) (name : List Char) :
    Int × List (List Char × Int) :=
  match vars_find vars name with
  | some v => (v, vars)
  | none => (0, vars_set vars name 0)

/-- `reduce_assign`: `table->vars[E1->name] = E2->value`, then `E2` is returned. -/
def reduce_assign (table : Table) (E1 E2 : Option Value) : Run (Option Value × Table) :=
  match E1, E2 with
  | some (Value.Ident name), some (Value.Num value) =>
    .ret (some (Value.Num value), { table with vars := vars_set table.vars name value })
  | _, _ => .undefined

/-- `reduce_exit`. -/
def reduce_exit (table : Table) : Run (Option Value × Table) :=
  .ret (some (Value.Num 0), { table with done := true })

/-- `reduce_div_int`: `int` division truncates; division by zero and the
overflow of `INT_MIN / -1` are undefined. -/
def reduce_div_int (table : Table) (E1 E2 : Option Value) : Run (Option Value × Table) :=
  match E1, E2 with
  | some (Value.Num a), some (Value.Num b) =>
    if b = 0 then .undefined
    else (int_result (Int.tdiv a b)).bind fun z => .ret (some (Value.Num z), table)
  | _, _ => .undefined

/-- `reduce_lookup`: a new `Num` holding `table->vars[E1->name]`. -/
def reduce_lookup (table : Table) (E1 : Option Value) : Run (Option Value × Table) :=
  match E1 with
  | some (Value.Ident name) =>
    .ret (some (Value.Num (vars_index table.vars name).1),
      { table with vars := (vars_index table.vars name).2 })
  | _ => .undefined

/-! ## Hand-built tables for `E -> E + T | T`, `T -> T * F | F`, `F -> ( E ) | num` -/

/-- Terminals and nonterminals of the expression grammar. -/
inductive Sym where
  | num | plus | times | lparen | rparen | endmark | S | E | T | F
  deriving DecidableEq, Repr

/-- Rules of the expression grammar, with the start rule `S -> E`. -/
inductive ERule where
  | total | add | e_t | mul | t_f | paren | f_num
  deriving DecidableEq, Repr

/-- Token automaton: node 0 is initial, node 1 reads a run of digits, nodes 2 to 5
are reached on `+`, `*`, `(` and `)`. -/
def expr_node_next (node : Nat) (c : Char) : Option Nat :=
  match node with
  | 0 =>
    if c.isDigit then some 1
    else if c = '+' then some 2
    else if c = '*' then some 3
    else if c = '(' then some 4
    else if c = ')' then some 5
    else none
  | 1 => if c.isDigit then some 1 else none
  | _ => none

/-- Terminal accepted at a node of the token automaton. -/
def expr_node_accept (node : Nat) : Option Sym :=
  match node with
  | 1 => some Sym.num
  | 2 => some Sym.plus
  | 3 => some Sym.times
  | 4 => some Sym.lparen
  | 5 => some Sym.rparen
  | _ => none

/-- Scan function of a node: `scan_num` for numbers, a null payload otherwise. -/
def expr_node_scan (node : Nat) (table : Table) (text : List Char) : Run (Option Value × Table) :=
  match node with
  | 1 => scan_num table text
  | _ => .ret (none, table)

/-- Shift entries of the SLR(1) automaton (states 0 to 11, state 12 after `S`). -/
def expr_find_shift (state : Nat) (sym : Sym) : Option Nat :=
  match state, sym with
  | 0, Sym.num => some 5
  | 0, Sym.lparen => some 4
  | 1, Sym.plus => some 6
  | 2, Sym.times => some 7
  | 4, Sym.num => some 5
  | 4, Sym.lparen => some 4
  | 6, Sym.num => some 5
  | 6, Sym.lparen => some 4
  | 7, Sym.num => some 5
  | 7, Sym.lparen => some 4
  | 8, Sym.plus => some 6
  | 8, Sym.rparen => some 11
  | 9, Sym.times => some 7
  | _, _ => none

/-- Symbols of FOLLOW(E) = FOLLOW(T) minus `*`. -/
def expr_follow_e (sym : Sym) : Bool :=
  sym = Sym.plus || sym = Sym.rparen || sym = Sym.endmark

/-- Symbols of FOLLOW(T) = FOLLOW(F). -/
def expr_follow_t (sym : Sym) : Bool :=
  sym = Sym.plus || sym = Sym.times || sym = Sym.rparen || sym = Sym.endmark

/-- Reduce entries of the SLR(1) automaton; only `S -> E` on the end-marker accepts. -/
def expr_find_reduce (state : Nat) (sym : Sym) : Option (ERule × Bool) :=
  match state with
  | 1 => if sym = Sym.endmark then some (ERule.total, true) else none
  | 2 => if expr_follow_e sym then some (ERule.e_t, false) else none
  | 3 => if expr_follow_t sym then some (ERule.t_f, false) else none
  | 5 => if expr_follow_t sym then some (ERule.f_num, false) else none
  | 9 => if expr_follow_e sym then some (ERule.add, false) else none
  | 10 => if expr_follow_t sym then some (ERule.mul, false) else none
  | 11 => if expr_follow_t sym then some (ERule.paren, false) else none
  | _ => none

/-- Left-hand nonterminal and length of each rule. -/
def expr_rule_nonterm (rule : ERule) : Sym × Nat :=
  match rule with
  | ERule.total => (Sym.S, 1)
  | ERule.add => (Sym.E, 3)
  | ERule.e_t => (Sym.E, 1)
  | ERule.mul => (Sym.T, 3)
  | ERule.t_f => (Sym.T, 1)
  | ERule.paren => (Sym.F, 3)
  | ERule.f_num => (Sym.F, 1)

/-- Semantic action of each rule on its value slots: the typed slots are handed
to the reduce function; the unit rules hand their value on. -/
def expr_action (rule : ERule) (table : Table) (args : List (Option Value)) :
    Run (Option Value × Table) :=
  match rule, args with
  | ERule.total, [e1] => reduce_total table e1
  | ERule.add, [e1, _, e2] => reduce_add_mul table e1 e2
  | ERule.mul, [e1, _, e2] => reduce_mul_int table e1 e2
  | ERule.paren, [_, e1, _] => reduce_paren table e1
  | ERule.e_t, [e1] => .ret (e1, table)
  | ERule.t_f, [e1] => .ret (e1, table)
  | ERule.f_num, [e1] => .ret (e1, table)
  | _, _ => .undefined

/-- Goto entries of the SLR(1) automaton. -/
def expr_find_goto (state : Nat) (sym : Sym) : Nat :=
  match state, sym with
  | 0, Sym.S => 12
  | 0, Sym.E => 1
  | 0, Sym.T => 2
  | 0, Sym.F => 3
  | 4, Sym.E => 8
  | 4, Sym.T => 2
  | 4, Sym.F => 3
  | 6, Sym.T => 9
  | 6, Sym.F => 3
  | 7, Sym.F => 10
  | _, _ => 0

/-- The expression tables. -/
def exprTables : Tables Nat Nat Sym ERule Value Table :=
  { node0 := 0
    state0 := 0
    endmark := Sym.endmark
    node_next := expr_node_next
    node_accept := expr_node_accept
    node_scan := expr_node_scan
    find_shift := expr_find_shift
    find_reduce := expr_find_reduce
    rule_nonterm := expr_rule_nonterm
    action := expr_action
    find_goto := expr_find_goto }

/-! ## Further hand-built tables over the same token automaton, symbols and rules -/

/-- Parse tables that only shift: `num num? endmark`. -/
def shiftTables : Tables Nat Nat Sym ERule Value Table :=
  { exprTables with
    find_shift := fun state sym =>
      match state, sym with
      | 0, Sym.num => some 1
      | 1, Sym.num => some 2
      | 1, Sym.endmark => some 3
      | 2, Sym.endmark => some 3
      | _, _ => none
    find_reduce := fun _ _ => none }

/-- Parse tables that shift two numbers and then, on the end-marker, reduce the
top one by the accepting rule `S -> E` of length 1. -/
def tailTables : Tables Nat Nat Sym ERule Value Table :=
  { exprTables with
    find_shift := fun state sym =>
      match state, sym with
      | 0, Sym.num => some 1
      | 1, Sym.num => some 2
      | _, _ => none
    find_reduce := fun state sym =>
      match state, sym with
      | 2, Sym.endmark => some (ERule.total, true)
      | _, _ => none
    find_goto := fun _ _ => 3 }

/-- Tables whose initial node is itself accepting (it accepts `plus` on the empty
text); the parser shifts `num plus` and nothing else. -/
def emptyTables : Tables Nat Nat Sym ERule Value Table :=
  { exprTables with
    node_accept := fun node => if node = 0 then some Sym.plus else expr_node_accept node
    find_shift := fun state sym =>
      match state, sym with
      | 0, Sym.num => some 1
      | 1, Sym.plus => some 2
      | _, _ => none
    find_reduce := fun _ _ => none }

/-- Tables in which state 0 has both a shift and a reduce entry for `num`. -/
def conflictTables : Tables Nat Nat Sym ERule Value Table :=
  { exprTables with
    find_shift := fun state sym =>
      match state, sym with
      | 0, Sym.num => some 1
      | _, _ => none
    find_reduce := fun state sym =>
      match state, sym with
      | 0, Sym.num => some (ERule.add, false)
      | _, _ => none }

/-- An engine as constructed, before `start()`: empty vectors and buffer. -/
def engine0 : Calculator Nat Nat Sym Value :=
  { states := [], symbols := [], values := [], node := 0, text := [] }

/-- The context as `main` declares it: no bindings, `done` clear. -/
def table0 : Table :=
  { vars := [], done := false }

/-- The stacks of the expression tables when `1+2` has been read and reduced to
`E + T`, with an empty token buffer. -/
def sumState : Calculator Nat Nat Sym Value :=
  { states := [0, 1, 6, 9]
    symbols := [Sym.E, Sym.plus, Sym.T]
    values := [some (Value.Num 1), none, some (Value.Num 2)]
    node := 0
    text := [] }

/-- The engine when the number `1` is in the token buffer and nothing has
reached the parser. -/
def oneState : Calculator Nat Nat Sym Value :=
  { states := [0], symbols := [], values := [], node := 1, text := ['1'] }

/-- The engine when one number token `(num, 1)` has been shifted to state 1 and
the number `2` is in the token buffer. -/
def pendingState : Calculator Nat Nat Sym Value :=
  { states := [0, 1], symbols := [Sym.num], values := [some (Value.Num 1)],
    node := 1, text := ['2'] }

/-- The engine when the number `5` is in the token buffer and nothing has
reached the parser. -/
def fiveState : Calculator Nat Nat Sym Value :=
  { states := [0], symbols := [], values := [], node := 1, text := ['5'] }

/-- The expression tables with one more node: `#` leads from the initial node to
node 6, which accepts nothing and has no transition. -/
def hashTables : Tables Nat Nat Sym ERule Value Table :=
  { exprTables with
    node_next := fun node c => if node = 0 ∧ c = '#' then some 6 else expr_node_next node c }

/-- Tables whose initial node accepts `plus` on the empty text and whose every
parser state shifts `plus` (to itself); there is no reduce entry. -/
def loopTables : Tables Nat Nat Sym ERule Value Table :=
  { exprTables with
    node_accept := fun node => if node = 0 then some Sym.plus else expr_node_accept node
    find_shift := fun state sym => if sym = Sym.plus then some state else none
    find_reduce := fun _ _ => none }

/-- Parse tables that shift `num` and the end-marker in a cycle: state 0 shifts
`num` to state 1, state 1 shifts the end-marker back to state 0. -/
def cycleTables : Tables Nat Nat Sym ERule Value Table :=
  { exprTables with
    find_shift := fun state sym =>
      match state, sym with
      | 0, Sym.num => some 1
      | 1, Sym.endmark => some 0
      | _, _ => none
    find_reduce := fun _ _ => none }

/-- The engine of the expression tables when the token `(num, 5)` has been
shifted and the buffer still holds `5`. -/
def shiftedFive : Calculator Nat Nat Sym Value :=
  { states := [0, 5], symbols := [Sym.num], values := [some (Value.Num 5)],
    node := 1, text := ['5'] }

/-! ## Hand-built tables for statements: `S -> A ; R`, `A -> ident = num`, `R -> ident` -/

/-- Terminals and nonterminals of the statement grammar. -/
inductive SSym where
  | ident | eq | num | semi | endmark | S | A | R
  deriving DecidableEq, Repr

/-- Rules of the statement grammar. -/
inductive SRule where
  | total | assign | lookup
  deriving DecidableEq, Repr

/-- Token automaton: node 1 reads digits, node 2 reads letters, nodes 3 and 4 are
reached on `=` and `;`. -/
def stmt_node_next (node : Nat) (c : Char) : Option Nat :=
  match node with
  | 0 =>
    if c.isDigit then some 1
    else if c.isAlpha then some 2
    else if c = '=' then some 3
    else if c = ';' then some 4
    else none
  | 1 => if c.isDigit then some 1 else none
  | 2 => if c.isAlpha then some 2 else none
  | _ => none

/-- Terminal accepted at a node of the statement token automaton. -/
def stmt_node_accept (node : Nat) : Option SSym :=
  match node with
  | 1 => some SSym.num
  | 2 => some SSym.ident
  | 3 => some SSym.eq
  | 4 => some SSym.semi
  | _ => none

/-- Scan function of a node: `scan_num`, `scan_ident`, or a null payload. -/
def stmt_node_scan (node : Nat) (table : Table) (text : List Char) : Run (Option Value × Table) :=
  match node with
  | 1 => scan_num table text
  | 2 => scan_ident table text
  | _ => .ret (none, table)

/-- Shift entries: `ident = num` from state 0, `; ident` after `A`. -/
def stmt_find_shift (state : Nat) (sym : SSym) : Option Nat :=
  match state, sym with
  | 0, SSym.ident => some 1
  | 1, SSym.eq => some 2
  | 2, SSym.num => some 3
  | 4, SSym.semi => some 5
  | 5, SSym.ident => some 6
  | _, _ => none

/-- Reduce entries; only `S -> A ; R` on the end-marker accepts. -/
def stmt_find_reduce (state : Nat) (sym : SSym) : Option (SRule × Bool) :=
  match state, sym with
  | 3, SSym.semi => some (SRule.assign, false)
  | 6, SSym.endmark => some (SRule.lookup, false)
  | 7, SSym.endmark => some (SRule.total, true)
  | _, _ => none

/-- Left-hand nonterminal and length of each statement rule. -/
def stmt_rule_nonterm (rule : SRule) : SSym × Nat :=
  match rule with
  | SRule.total => (SSym.S, 3)
  | SRule.assign => (SSym.A, 3)
  | SRule.lookup => (SSym.R, 1)

/-- Semantic action of each statement rule on its value slots. -/
def stmt_action (rule : SRule) (table : Table) (args : List (Option Value)) :
    Run (Option Value × Table) :=
  match rule, args with
  | SRule.assign, [e1, _, e2] => reduce_assign table e1 e2
  | SRule.lookup, [e1] => reduce_lookup table e1
  | SRule.total, [_, _, e1] => reduce_total table e1
  | _, _ => .undefined

/-- Goto entries of the statement automaton. -/
def stmt_find_goto (state : Nat) (sym : SSym) : Nat :=
  match state, sym with
  | 0, SSym.A => 4
  | 5, SSym.R => 7
  | 0, SSym.S => 8
  | _, _ => 0

/-- The statement tables. -/
def stmtTables : Tables Nat Nat SSym SRule Value Table :=
  { node0 := 0
    state0 := 0
    endmark := SSym.endmark
    node_next := stmt_node_next
    node_accept := stmt_node_accept
    node_scan := stmt_node_scan
    find_shift := stmt_find_shift
    find_reduce := stmt_find_reduce
    rule_nonterm := stmt_rule_nonterm
    action := stmt_action
    find_goto := stmt_find_goto }

/-- An engine over the statement symbols as constructed, before `start()`. -/
def stmtEngine0 : Calculator Nat Nat SSym Value :=
  { states := [], symbols := [], values := [], node := 0, text := [] }

/-- The engine of `hashTables` after `start()` and the character `#`. -/
def hashState : Calculator Nat Nat Sym Value :=
  { states := [0], symbols := [], values := [], node := 6, text := ['#'] }

/-! ## Vocabulary of the statements -/

section Vocabulary

variable {Node State Symbol Rule Val Ctx : Type}

/-- The lockstep the code keeps: one more state than symbols, as many values as symbols. -/
def Lockstep (s : Calculator Node State Symbol Val) : Prop :=
  s.states.length = s.symbols.length + 1 ∧ s.symbols.length = s.values.length

/-- The stacks of `s` with the top `n` entries removed. -/
def popped (n : Nat) (s : Calculator Node State Symbol Val) : Calculator Node State Symbol Val :=
  { s with
    states := s.states.take (s.states.length - n)
    symbols := s.symbols.take (s.symbols.length - n)
    values := s.values.take (s.values.length - n) }

/-- Engine states reachable from `start()` by calls of `scan`, `advance` and
`scan_end` that return (with success or with failure). -/
inductive Reachable [DecidableEq Node] (T : Tables Node State Symbol Rule Val Ctx) :
    Calculator Node State Symbol Val → Prop where
  | start (s : Calculator Node State Symbol Val) : Reachable T (start T s)
  | scan (fuel : Nat) (table : Ctx) (c : Char) (s : Calculator Node State Symbol Val)
      (r : Bool × Calculator Node State Symbol Val × Ctx) :
      Reachable T s → scan T fuel table c s = Run.ret r → Reachable T r.2.1
  | advance (fuel : Nat) (table : Ctx) (sym : Symbol) (val : Option Val)
      (s : Calculator Node State Symbol Val) (r : Bool × Calculator Node State Symbol Val × Ctx) :
      Reachable T s → advance T fuel table sym val s = Run.ret r → Reachable T r.2.1
  | scan_end (fuel : Nat) (table : Ctx) (s : Calculator Node State Symbol Val)
      (r : Option Val × Calculator Node State Symbol Val × Ctx) :
      Reachable T s → scan_end T fuel table s = Run.ret r → Reachable T r.2.1

/-- The three ways in which one pass through the loop of `advance` returns or
goes on: `sym` is shifted; neither a shift nor a reduce entry exists; a rule is
reduced, the frame of its nonterminal is pushed on the state `base` that the
removal exposes, and the pass ends the call only if the entry is accepting. -/
def PassOutcome (T : Tables Node State Symbol Rule Val Ctx) (table : Ctx) (sym : Symbol)
    (val : Option Val) (s : Calculator Node State Symbol Val)
    (r : Option Bool × Calculator Node State Symbol Val × Ctx) : Prop :=
  ∃ top, s.states.getLast? = some top ∧
    ((∃ next, T.find_shift top sym = some next ∧ r = (some true, push next sym val s, table)) ∨
     (T.find_shift top sym = none ∧ T.find_reduce top sym = none ∧ r = (some false, s, table)) ∨
     (T.find_shift top sym = none ∧ ∃ rule accept result table1 base,
        T.find_reduce top sym = some (rule, accept) ∧
        ((T.rule_nonterm rule).2 ≤ s.states.length ∧ (T.rule_nonterm rule).2 ≤ s.symbols.length ∧
          (T.rule_nonterm rule).2 ≤ s.values.length) ∧
        T.action rule table (s.values.drop (s.values.length - (T.rule_nonterm rule).2)) =
          Run.ret (result, table1) ∧
        (popped (T.rule_nonterm rule).2 s).states.getLast? = some base ∧
        r = (if accept = true then some true else none,
             push (T.find_goto base (T.rule_nonterm rule).1) (T.rule_nonterm rule).1 result
               (popped (T.rule_nonterm rule).2 s),
             table1)))

/-- `Reductions T sym val k s table s1 table1`: starting from stacks `s` and
context `table`, the loop of `advance` for `sym` goes round `k` times, each pass
a reduction that does not accept, and then stands at `s1` and `table1`. -/
def Reductions (T : Tables Node State Symbol Rule Val Ctx) (sym : Symbol) (val : Option Val) :
    Nat → Calculator Node State Symbol Val → Ctx → Calculator Node State Symbol Val → Ctx → Prop
  | 0, s, table, s1, table1 => s1 = s ∧ table1 = table
  | k + 1, s, table, s1, table1 =>
    ∃ s2 table2, advance_body T table sym val s = Run.ret (none, s2, table2) ∧
      Reductions T sym val k s2 table2 s1 table1

/-- `MarkEntry T fuel table s s0 table0`: in `scan_end` on `s` and `table`,
control reaches the advance of the end-marker with stacks `s0` and context
`table0`: either the node is the non-accepting initial node and nothing was
done, or the node accepts and the advance of the pending token returned `true`. -/
def MarkEntry [DecidableEq Node] (T : Tables Node State Symbol Rule Val Ctx) (fuel : Nat)
    (table : Ctx) (s s0 : Calculator Node State Symbol Val) (table0 : Ctx) : Prop :=
  (T.node_accept s.node = none ∧ s.node = T.node0 ∧ s0 = s ∧ table0 = table) ∨
  (∃ acc v table1, T.node_accept s.node = some acc ∧
    T.node_scan s.node table s.text = Run.ret (v, table1) ∧
    advance T fuel table1 acc v s = Run.ret (true, s0, table0))

/-- The node reached from `node` by following the transitions of the token
automaton over the characters of `text` in order, if all of them exist. -/
def follow (T : Tables Node State Symbol Rule Val Ctx) (node : Node) : List Char → Option Node
  | [] => some node
  | c :: rest =>
    match T.node_next node c with
    | some next => follow T next rest
    | none => none

/-- The bottom entry of the state stack is the sentinel `state0`. -/
def Anchored (T : Tables Node State Symbol Rule Val Ctx)
    (s : Calculator Node State Symbol Val) : Prop :=
  s.states.head? = some T.state0

/-- The ways in which a call `scan(table, c)` on `s` ends with result `r` after
at most one token: `c` is skipped at the initial node; `c` is appended; a lexical
error; or exactly one advance of the token `(A, v)` returned `p`, and then either
that advance failed, or `c` was handled from the initial node with an empty
buffer: skipped, appended, or refused. -/
def ScanOutcome [DecidableEq Node] (T : Tables Node State Symbol Rule Val Ctx) (fuel : Nat)
    (table : Ctx) (c : Char) (s : Calculator Node State Symbol Val)
    (r : Bool × Calculator Node State Symbol Val × Ctx) : Prop :=
  (r = (true, s, table) ∧ s.node = T.node0 ∧ isspace c = true) ∨
  (∃ next, T.node_next s.node c = some next ∧
    r = (true, { s with text := s.text ++ [c], node := next }, table)) ∨
  (T.node_accept s.node = none ∧ r = (false, s, table)) ∨
  (∃ A w p, T.node_accept s.node = some A ∧
    T.node_scan s.node table s.text = Run.ret w ∧
    advance T fuel w.2 A w.1 s = Run.ret p ∧
    ((p.1 = false ∧ r = (false, p.2.1, p.2.2)) ∨
     (p.1 = true ∧ isspace c = true ∧
        r = (true, { p.2.1 with node := T.node0, text := [] }, p.2.2)) ∨
     (p.1 = true ∧ ∃ next, T.node_next T.node0 c = some next ∧
        r = (true, { p.2.1 with node := next, text := [c] }, p.2.2)) ∨
     (p.1 = true ∧ T.node_accept T.node0 = none ∧
        r = (false, { p.2.1 with node := T.node0, text := [] }, p.2.2))))

end Vocabulary

/-! ## General facts about the engine -/

section Engine

variable {Node State Symbol Rule Val Ctx : Type}

@[simp] theorem Run.bind_ret {α β : Type} (a : α) (f : α → Run β) :
    (Run.ret a).bind f = f a := rfl

@[simp] theorem Run.bind_raise {α β : Type} (f : α → Run β) :
    (Run.raise : Run α).bind f = Run.raise := rfl

@[simp] theorem Run.bind_undefined {α β : Type} (f : α → Run β) :
    (Run.undefined : Run α).bind f = Run.undefined := rfl

@[simp] theorem Run.bind_timeout {α β : Type} (f : α → Run β) :
    (Run.timeout : Run α).bind f = Run.timeout := rfl

/-- A sequence returns only if its first call returns. -/
theorem Run.bind_eq_ret {α β : Type} {x : Run α} {f : α → Run β} {b : β}
    (h : x.bind f = Run.ret b) : ∃ a, x = Run.ret a ∧ f a = Run.ret b := by
  cases x with
  | ret a => exact ⟨a, rfl, h⟩
  | raise => simp at h
  | undefined => simp at h
  | timeout => simp at h

theorem take_dropLast_sub {α : Type} (l : List α) (n : Nat) :
    l.dropLast.take (l.length - 1 - n) = l.take (l.length - (n + 1)) := by
  rw [List.dropLast_eq_take, List.take_take]
  congr 1
  omega

/-- `pop` returns exactly when each vector holds at least `count` entries, and
then it has removed the top `count` entries of each. -/
theorem pop_eq_ret (n : Nat) (s s1 : Calculator Node State Symbol Val) :
    pop n s = Run.ret s1 ↔
      (n ≤ s.states.length ∧ n ≤ s.symbols.length ∧ n ≤ s.values.length) ∧ s1 = popped n s := by
  induction n generalizing s with
  | zero =>
    simp only [pop, popped, Nat.sub_zero, List.take_length, Nat.zero_le, and_self, true_and]
    constructor
    · intro h; injection h with h; exact h.symm
    · intro h; rw [h]
  | succ n ih =>
    unfold pop
    by_cases hs : s.states = []
    · simp [hs]
    by_cases hy : s.symbols = []
    · simp [hy]
    by_cases hv : s.values = []
    · simp [hv]
    have h1 := List.length_pos.mpr hs
    have h2 := List.length_pos.mpr hy
    have h3 := List.length_pos.mpr hv
    have he : (s.states.isEmpty || s.symbols.isEmpty || s.values.isEmpty) = false := by
      simp [List.isEmpty_iff, hs, hy, hv]
    rw [he, if_neg (by simp), ih]
    simp only [popped, List.length_dropLast, take_dropLast_sub]
    constructor
    · rintro ⟨⟨a, b, c⟩, h⟩
      exact ⟨⟨by omega, by omega, by omega⟩, h⟩
    · rintro ⟨⟨a, b, c⟩, h⟩
      exact ⟨⟨by omega, by omega, by omega⟩, h⟩

theorem lockstep_push (state : State) (sym : Symbol) (val : Option Val)
    (s : Calculator Node State Symbol Val) (h : Lockstep s) : Lockstep (push state sym val s) := by
  unfold Lockstep push at *
  simp only [List.length_append, List.length_singleton]
  omega

/-- A pass through the loop of `advance` returns exactly in the three ways of `PassOutcome`. -/
theorem advance_body_eq_ret (T : Tables Node State Symbol Rule Val Ctx) (table : Ctx)
    (sym : Symbol) (val : Option Val) (s : Calculator Node State Symbol Val)
    (r : Option Bool × Calculator Node State Symbol Val × Ctx) :
    advance_body T table sym val s = Run.ret r ↔ PassOutcome T table sym val s r := by
  unfold advance_body PassOutcome
  cases htop : s.states.getLast? with
  | none => simp
  | some top =>
    simp only [Option.some.injEq, exists_eq_left']
    cases hshift : T.find_shift top sym with
    | some next =>
      simp only [Option.some.injEq, exists_eq_left', Run.ret.injEq, false_and, or_false,
        reduceCtorEq]
      exact eq_comm
    | none =>
      cases hred : T.find_reduce top sym with
      | none =>
        simp only [Run.ret.injEq, reduceCtorEq, false_and,
          exists_false, true_and, or_false, false_or, and_false]
        exact eq_comm
      | some ra =>
        obtain ⟨rule, accept⟩ := ra
        simp only [Option.some.injEq, reduceCtorEq, false_and, exists_false,
          true_and, false_or, Prod.mk.injEq]
        constructor
        · intro h
          obtain ⟨res, hres, h⟩ := Run.bind_eq_ret h
          obtain ⟨s1, hpop, h⟩ := Run.bind_eq_ret h
          rw [pop_eq_ret] at hpop
          obtain ⟨hle, rfl⟩ := hpop
          unfold rule_reduce at hres
          rw [if_pos hle.2.2] at hres
          cases hbase : (popped (T.rule_nonterm rule).2 s).states.getLast? with
          | none => rw [hbase] at h; simp at h
          | some base =>
            rw [hbase] at h
            injection h with h
            exact ⟨rule, accept, res.1, res.2, base, ⟨rfl, rfl⟩, hle, hres, hbase, h.symm⟩
        · rintro ⟨rule1, accept1, result, table1, base, ⟨rfl, rfl⟩, hle, hact, hbase, rfl⟩
          have hpop := (pop_eq_ret (T.rule_nonterm rule).2 s _).mpr ⟨hle, rfl⟩
          unfold rule_reduce
          rw [if_pos hle.2.2, hact, Run.bind_ret, hpop, Run.bind_ret]
          simp only [hbase]

theorem lockstep_popped (n : Nat) (s : Calculator Node State Symbol Val) (h : Lockstep s)
    (hn : n ≤ s.symbols.length) : Lockstep (popped n s) := by
  unfold Lockstep popped at *
  simp only [List.length_take]
  omega

/-- One pass through the loop of `advance` keeps the lockstep. -/
theorem lockstep_advance_body (T : Tables Node State Symbol Rule Val Ctx) (table : Ctx)
    (sym : Symbol) (val : Option Val) (s : Calculator Node State Symbol Val)
    (r : Option Bool × Calculator Node State Symbol Val × Ctx)
    (h : advance_body T table sym val s = Run.ret r) (hs : Lockstep s) : Lockstep r.2.1 := by
  rw [advance_body_eq_ret] at h
  obtain ⟨top, -, h⟩ := h
  rcases h with ⟨next, -, rfl⟩ | ⟨-, -, rfl⟩ | ⟨-, rule, accept, result, table1, base, -, hle, -, -, rfl⟩
  · exact lockstep_push _ _ _ _ hs
  · exact hs
  · exact lockstep_push _ _ _ _ (lockstep_popped _ _ hs hle.2.1)

/-- `advance` keeps the lockstep, whether it returns `true` or `false`. -/
theorem lockstep_advance (T : Tables Node State Symbol Rule Val Ctx) (fuel : Nat) (table : Ctx)
    (sym : Symbol) (val : Option Val) (s : Calculator Node State Symbol Val)
    (r : Bool × Calculator Node State Symbol Val × Ctx)
    (h : advance T fuel table sym val s = Run.ret r) (hs : Lockstep s) : Lockstep r.2.1 := by
  induction fuel generalizing table s with
  | zero => simp [advance] at h
  | succ fuel ih =>
    unfold advance at h
    obtain ⟨p, hp, h⟩ := Run.bind_eq_ret h
    have hl := lockstep_advance_body T table sym val s p hp hs
    cases hp1 : p.1 with
    | some b =>
      rw [hp1] at h
      injection h with h
      rw [← h]; exact hl
    | none =>
      rw [hp1] at h
      exact ih _ _ h hl

/-- `scan` keeps the lockstep. -/
theorem lockstep_scan [DecidableEq Node] (T : Tables Node State Symbol Rule Val Ctx) (fuel : Nat)
    (table : Ctx) (c : Char) (s : Calculator Node State Symbol Val)
    (r : Bool × Calculator Node State Symbol Val × Ctx)
    (h : scan T fuel table c s = Run.ret r) (hs : Lockstep s) : Lockstep r.2.1 := by
  induction fuel generalizing table s with
  | zero => simp [scan] at h
  | succ fuel ih =>
    unfold scan at h
    split at h
    · injection h with h; rw [← h]; exact hs
    · split at h
      · injection h with h; rw [← h]; exact hs
      · split at h
        · injection h with h; rw [← h]; exact hs
        · obtain ⟨v, -, h⟩ := Run.bind_eq_ret h
          obtain ⟨p, hp, h⟩ := Run.bind_eq_ret h
          have hl := lockstep_advance T fuel _ _ _ s p hp hs
          split at h
          · exact ih _ _ h hl
          · injection h with h; rw [← h]; exact hl

theorem lockstep_scan_end_mark (T : Tables Node State Symbol Rule Val Ctx) (fuel : Nat)
    (table : Ctx) (s : Calculator Node State Symbol Val)
    (r : Option Val × Calculator Node State Symbol Val × Ctx)
    (h : scan_end_mark T fuel table s = Run.ret r) (hs : Lockstep s) : Lockstep r.2.1 := by
  unfold scan_end_mark at h
  obtain ⟨p, hp, h⟩ := Run.bind_eq_ret h
  have hl := lockstep_advance T fuel _ _ _ s p hp hs
  split at h
  · split at h
    · simp at h
    · injection h with h; rw [← h]; exact hl
  · injection h with h; rw [← h]; exact hl

/-- `scan_end` keeps the lockstep. -/
theorem lockstep_scan_end [DecidableEq Node] (T : Tables Node State Symbol Rule Val Ctx)
    (fuel : Nat) (table : Ctx) (s : Calculator Node State Symbol Val)
    (r : Option Val × Calculator Node State Symbol Val × Ctx)
    (h : scan_end T fuel table s = Run.ret r) (hs : Lockstep s) : Lockstep r.2.1 := by
  unfold scan_end at h
  split at h
  · obtain ⟨v, -, h⟩ := Run.bind_eq_ret h
    obtain ⟨p, hp, h⟩ := Run.bind_eq_ret h
    have hl := lockstep_advance T fuel _ _ _ s p hp hs
    split at h
    · exact lockstep_scan_end_mark T fuel _ _ r h hl
    · injection h with h; rw [← h]; exact hl
  · split at h
    · injection h with h; rw [← h]; exact hs
    · exact lockstep_scan_end_mark T fuel _ _ r h hs

theorem lockstep_start (T : Tables Node State Symbol Rule Val Ctx)
    (s : Calculator Node State Symbol Val) : Lockstep (start T s) := by
  simp [Lockstep, start]

/-- `advance` unfolded once. -/
theorem advance_succ (T : Tables Node State Symbol Rule Val Ctx) (fuel : Nat) (table : Ctx)
    (sym : Symbol) (val : Option Val) (s : Calculator Node State Symbol Val) :
    advance T (fuel + 1) table sym val s =
      (advance_body T table sym val s).bind fun r =>
        match r.1 with
        | some b => Run.ret (b, r.2.1, r.2.2)
        | none => advance T fuel r.2.2 sym val r.2.1 := rfl

/-- `advance` returns `b` with stacks `s1` and context `table1` within `fuel`
passes exactly if fewer than `fuel` non-accepting reductions lead to a pass that
executes `return b` there. -/
theorem advance_eq_ret_iff (T : Tables Node State Symbol Rule Val Ctx) (fuel : Nat) (table : Ctx)
    (sym : Symbol) (val : Option Val) (s : Calculator Node State Symbol Val) (b : Bool)
    (s1 : Calculator Node State Symbol Val) (table1 : Ctx) :
    advance T fuel table sym val s = Run.ret (b, s1, table1) ↔
      ∃ k, k < fuel ∧ ∃ sk tk, Reductions T sym val k s table sk tk ∧
        advance_body T tk sym val sk = Run.ret (some b, s1, table1) := by
  induction fuel generalizing table s with
  | zero => simp [advance]
  | succ fuel ih =>
    rw [advance_succ]
    cases hb : advance_body T table sym val s with
    | ret p =>
      obtain ⟨o, s2, t2⟩ := p
      cases o with
      | some b0 =>
        simp only [Run.bind_ret, Run.ret.injEq, Prod.mk.injEq]
        constructor
        · rintro ⟨rfl, rfl, rfl⟩
          exact ⟨0, Nat.succ_pos _, s, table, ⟨rfl, rfl⟩, hb⟩
        · rintro ⟨k, -, sk, tk, hk, hlast⟩
          cases k with
          | zero =>
            obtain ⟨rfl, rfl⟩ := hk
            rw [hb] at hlast
            injection hlast with hlast
            injection hlast with h1 h2
            injection h1 with h1
            injection h2 with h2 h3
            exact ⟨h1, h2, h3⟩
          | succ k =>
            obtain ⟨s3, t3, h3, -⟩ := hk
            rw [hb] at h3
            injection h3 with h3
            injection h3 with h3
            exact absurd h3 (by simp)
      | none =>
        simp only [Run.bind_ret]
        rw [ih]
        constructor
        · rintro ⟨k, hk, sk, tk, hred, hlast⟩
          exact ⟨k + 1, Nat.succ_lt_succ hk, sk, tk, ⟨s2, t2, hb, hred⟩, hlast⟩
        · rintro ⟨k, hk, sk, tk, hred, hlast⟩
          cases k with
          | zero =>
            obtain ⟨rfl, rfl⟩ := hred
            rw [hb] at hlast
            injection hlast with hlast
            injection hlast with hlast
            exact absurd hlast (by simp)
          | succ k =>
            obtain ⟨s3, t3, h3, hred⟩ := hred
            rw [hb] at h3
            injection h3 with h3
            injection h3 with _ h3
            injection h3 with h3 h4
            subst h3 h4
            exact ⟨k, Nat.lt_of_succ_lt_succ hk, sk, tk, hred, hlast⟩
    | raise =>
      simp only [Run.bind_raise, reduceCtorEq, false_iff, not_exists, not_and]
      intro k _ sk tk hred hlast
      cases k with
      | zero => obtain ⟨rfl, rfl⟩ := hred; rw [hb] at hlast; simp at hlast
      | succ k => obtain ⟨s3, t3, h3, -⟩ := hred; rw [hb] at h3; simp at h3
    | undefined =>
      simp only [Run.bind_undefined, reduceCtorEq, false_iff, not_exists, not_and]
      intro k _ sk tk hred hlast
      cases k with
      | zero => obtain ⟨rfl, rfl⟩ := hred; rw [hb] at hlast; simp at hlast
      | succ k => obtain ⟨s3, t3, h3, -⟩ := hred; rw [hb] at h3; simp at h3
    | timeout =>
      simp only [Run.bind_timeout, reduceCtorEq, false_iff, not_exists, not_and]
      intro k _ sk tk hred hlast
      cases k with
      | zero => obtain ⟨rfl, rfl⟩ := hred; rw [hb] at hlast; simp at hlast
      | succ k => obtain ⟨s3, t3, h3, -⟩ := hred; rw [hb] at h3; simp at h3

/-- More fuel does not change what `advance` returns. -/
theorem advance_mono (T : Tables Node State Symbol Rule Val Ctx) (fuel more : Nat) (table : Ctx)
    (sym : Symbol) (val : Option Val) (s : Calculator Node State Symbol Val)
    (r : Bool × Calculator Node State Symbol Val × Ctx)
    (h : advance T fuel table sym val s = Run.ret r) :
    advance T (fuel + more) table sym val s = Run.ret r := by
  obtain ⟨b, s1, t1⟩ := r
  rw [advance_eq_ret_iff] at h ⊢
  obtain ⟨k, hk, rest⟩ := h
  exact ⟨k, by omega, rest⟩

/-- More fuel does not change what `scan` returns. -/
theorem scan_mono [DecidableEq Node] (T : Tables Node State Symbol Rule Val Ctx)
    (fuel more : Nat) (table : Ctx) (c : Char) (s : Calculator Node State Symbol Val)
    (r : Bool × Calculator Node State Symbol Val × Ctx)
    (h : scan T fuel table c s = Run.ret r) : scan T (fuel + more) table c s = Run.ret r := by
  induction fuel generalizing table s with
  | zero => simp [scan] at h
  | succ fuel ih =>
    rw [Nat.add_right_comm]
    unfold scan at h ⊢
    split
    · rename_i hc; rw [if_pos hc] at h; exact h
    · rename_i hc
      rw [if_neg hc] at h
      split
      · rename_i next hn; rw [hn] at h; exact h
      · rename_i hn
        rw [hn] at h
        split
        · rename_i ha; rw [ha] at h; exact h
        · rename_i acc ha
          rw [ha] at h
          simp only at h
          obtain ⟨v, hv, h⟩ := Run.bind_eq_ret h
          obtain ⟨p, hp, h⟩ := Run.bind_eq_ret h
          rw [hv, Run.bind_ret, advance_mono T fuel more _ _ _ _ p hp, Run.bind_ret]
          split
          · rename_i hok; rw [if_pos hok] at h; exact ih _ _ h
          · rename_i hok; rw [if_neg hok] at h; exact h

theorem scan_end_mark_mono (T : Tables Node State Symbol Rule Val Ctx) (fuel more : Nat)
    (table : Ctx) (s : Calculator Node State Symbol Val)
    (r : Option Val × Calculator Node State Symbol Val × Ctx)
    (h : scan_end_mark T fuel table s = Run.ret r) :
    scan_end_mark T (fuel + more) table s = Run.ret r := by
  unfold scan_end_mark at h ⊢
  obtain ⟨p, hp, h⟩ := Run.bind_eq_ret h
  rw [advance_mono T fuel more _ _ _ _ p hp, Run.bind_ret]
  exact h

/-- More fuel does not change what `scan_end` returns. -/
theorem scan_end_mono [DecidableEq Node] (T : Tables Node State Symbol Rule Val Ctx)
    (fuel more : Nat) (table : Ctx) (s : Calculator Node State Symbol Val)
    (r : Option Val × Calculator Node State Symbol Val × Ctx)
    (h : scan_end T fuel table s = Run.ret r) : scan_end T (fuel + more) table s = Run.ret r := by
  unfold scan_end at h ⊢
  split
  · rename_i acc ha
    rw [ha] at h
    simp only at h
    obtain ⟨v, hv, h⟩ := Run.bind_eq_ret h
    obtain ⟨p, hp, h⟩ := Run.bind_eq_ret h
    rw [hv, Run.bind_ret, advance_mono T fuel more _ _ _ _ p hp, Run.bind_ret]
    split
    · rename_i hok; rw [if_pos hok] at h; exact scan_end_mark_mono T fuel more _ _ r h
    · rename_i hok; rw [if_neg hok] at h; exact h
  · rename_i ha
    rw [ha] at h
    simp only at h
    split
    · rename_i hn; rw [if_pos hn] at h; exact h
    · rename_i hn; rw [if_neg hn] at h; exact scan_end_mark_mono T fuel more _ _ r h

/-- More fuel does not change what the loop of `main` returns. -/
theorem main_loop_mono [DecidableEq Node] (T : Tables Node State Symbol Rule Val Ctx)
    (fuel more : Nat) (input : List Char) (table : Ctx) (s : Calculator Node State Symbol Val)
    (r : Option Val × Calculator Node State Symbol Val × Ctx)
    (h : main_loop T fuel input table s = Run.ret r) :
    main_loop T (fuel + more) input table s = Run.ret r := by
  induction input generalizing table s with
  | nil => exact scan_end_mono T fuel more table s r h
  | cons c rest ih =>
    unfold main_loop at h ⊢
    obtain ⟨p, hp, h⟩ := Run.bind_eq_ret h
    rw [scan_mono T fuel more _ _ _ p hp, Run.bind_ret]
    split
    · rename_i hok; rw [if_pos hok] at h; exact ih _ _ h
    · rename_i hok; rw [if_neg hok] at h; exact h

/-- The end-marker part of `scan_end` yields a non-null result only if the
advance of the end-marker returned `true`, and the result is `values.front()`. -/
theorem scan_end_mark_some (T : Tables Node State Symbol Rule Val Ctx) (fuel : Nat)
    (table : Ctx) (s : Calculator Node State Symbol Val) (v : Val)
    (s1 : Calculator Node State Symbol Val) (table1 : Ctx)
    (h : scan_end_mark T fuel table s = Run.ret (some v, s1, table1)) :
    advance T fuel table T.endmark none s = Run.ret (true, s1, table1) ∧
      s1.values.head? = some (some v) := by
  unfold scan_end_mark at h
  obtain ⟨p, hp, h⟩ := Run.bind_eq_ret h
  obtain ⟨b, s2, t2⟩ := p
  simp only at h
  split at h
  · rename_i hb
    split at h
    · simp at h
    · rename_i front hf
      injection h with h
      injection h with h1 h2
      injection h2 with h2 h3
      subst h1 h2 h3
      have hb1 : b = true := hb
      subst hb1
      exact ⟨hp, hf⟩
  · simp at h

/-- `scan_end` yields a non-null result only through the advance of the end-marker. -/
theorem scan_end_some [DecidableEq Node] (T : Tables Node State Symbol Rule Val Ctx)
    (fuel : Nat) (table : Ctx) (s : Calculator Node State Symbol Val) (v : Val)
    (s1 : Calculator Node State Symbol Val) (table1 : Ctx)
    (h : scan_end T fuel table s = Run.ret (some v, s1, table1)) :
    ∃ s0 table0, MarkEntry T fuel table s s0 table0 ∧
      advance T fuel table0 T.endmark none s0 = Run.ret (true, s1, table1) ∧
      s1.values.head? = some (some v) := by
  unfold scan_end at h
  split at h
  · rename_i acc ha
    obtain ⟨w, hw, h⟩ := Run.bind_eq_ret h
    obtain ⟨p, hp, h⟩ := Run.bind_eq_ret h
    obtain ⟨b, s2, t2⟩ := p
    simp only at h
    split at h
    · rename_i hb
      have hb1 : b = true := hb
      subst hb1
      obtain ⟨h1, h2⟩ := scan_end_mark_some T fuel _ _ v s1 table1 h
      exact ⟨s2, t2, Or.inr ⟨acc, w.1, w.2, ha, hw, hp⟩, h1, h2⟩
    · simp at h
  · rename_i ha
    split at h
    · simp at h
    · rename_i hn
      obtain ⟨h1, h2⟩ := scan_end_mark_some T fuel _ _ v s1 table1 h
      exact ⟨s, table, Or.inl ⟨ha, not_not.mp hn, rfl, rfl⟩, h1, h2⟩

/-- A successful `scan` takes the loop of `main` to the next character. -/
theorem main_loop_cons [DecidableEq Node] (T : Tables Node State Symbol Rule Val Ctx)
    (fuel : Nat) (c : Char) (rest : List Char) (table table1 : Ctx)
    (s s1 : Calculator Node State Symbol Val)
    (h : scan T fuel table c s = Run.ret (true, s1, table1)) :
    main_loop T fuel (c :: rest) table s = main_loop T fuel rest table1 s1 := by
  rw [main_loop, h]
  rfl

/-- At the initial node, a character that is not white space and has no
transition there is never consumed: whatever `scan` returns, it is not `true`. -/
theorem scan_at_node0_not_true [DecidableEq Node] (T : Tables Node State Symbol Rule Val Ctx)
    (c : Char) (hsp : isspace c = false) (hn : T.node_next T.node0 c = none) (fuel : Nat)
    (table : Ctx) (s : Calculator Node State Symbol Val)
    (r : Bool × Calculator Node State Symbol Val × Ctx)
    (hs : s.node = T.node0) (h : scan T fuel table c s = Run.ret r) : r.1 = false := by
  induction fuel generalizing table s with
  | zero => simp [scan] at h
  | succ fuel ih =>
    unfold scan at h
    have hc : ¬ (s.node = T.node0 ∧ isspace c = true) := by
      rintro ⟨-, h2⟩; rw [hsp] at h2; exact absurd h2 (by decide)
    rw [if_neg hc, hs, hn] at h
    simp only at h
    split at h
    · injection h with h; rw [← h]
    · obtain ⟨w, -, h⟩ := Run.bind_eq_ret h
      obtain ⟨p, -, h⟩ := Run.bind_eq_ret h
      split at h
      · exact ih _ _ rfl h
      · injection h with h; rw [← h]

/-- After `vars[name] = value`, `name` is bound to `value`. -/
theorem vars_find_set_same (vars : List (List Char × Int)) (name : List Char) (value : Int) :
    vars_find (vars_set vars name value) name = some value := by
  induction vars with
  | nil => simp [vars_set, vars_find]
  | cons kv rest ih =>
    obtain ⟨k, v⟩ := kv
    by_cases hk : k = name
    · simp [vars_set, vars_find, hk]
    · simp [vars_set, vars_find, hk, ih]

/-- `vars[name] = value` changes no binding of another name. -/
theorem vars_find_set_other (vars : List (List Char × Int)) (name other : List Char)
    (value : Int) (h : other ≠ name) :
    vars_find (vars_set vars name value) other = vars_find vars other := by
  induction vars with
  | nil => simp [vars_set, vars_find, Ne.symm h]
  | cons kv rest ih =>
    obtain ⟨k, v⟩ := kv
    by_cases hk : k = name
    · subst hk
      simp [vars_set, vars_find, Ne.symm h]
    · by_cases ho : k = other
      · subst ho
        simp [vars_set, vars_find, hk]
      · simp [vars_set, vars_find, hk, ho, ih]

/-- What every returning pass of the loop of `advance` keeps, `advance` keeps. -/
theorem advance_preserves (T : Tables Node State Symbol Rule Val Ctx)
    (P : Calculator Node State Symbol Val → Prop)
    (hP : ∀ table sym val s r, P s → advance_body T table sym val s = Run.ret r → P r.2.1)
    (fuel : Nat) (table : Ctx) (sym : Symbol) (val : Option Val)
    (s : Calculator Node State Symbol Val) (r : Bool × Calculator Node State Symbol Val × Ctx)
    (hs : P s) (h : advance T fuel table sym val s = Run.ret r) : P r.2.1 := by
  induction fuel generalizing table s with
  | zero => simp [advance] at h
  | succ fuel ih =>
    rw [advance_succ] at h
    obtain ⟨p, hp, h⟩ := Run.bind_eq_ret h
    have hl := hP table sym val s p hs hp
    cases hp1 : p.1 with
    | some b =>
      rw [hp1] at h
      injection h with h
      rw [← h]; exact hl
    | none =>
      rw [hp1] at h
      exact ih _ _ hl h

/-- A pass of the loop of `advance` leaves the node and the text buffer alone. -/
theorem advance_body_node_text (T : Tables Node State Symbol Rule Val Ctx) (table : Ctx)
    (sym : Symbol) (val : Option Val) (s : Calculator Node State Symbol Val)
    (r : Option Bool × Calculator Node State Symbol Val × Ctx)
    (h : advance_body T table sym val s = Run.ret r) :
    r.2.1.node = s.node ∧ r.2.1.text = s.text := by
  rw [advance_body_eq_ret] at h
  obtain ⟨top, -, h⟩ := h
  rcases h with ⟨next, -, rfl⟩ | ⟨-, -, rfl⟩ | ⟨-, rule, accept, result, table1, base, -, -, -, -, rfl⟩
  · exact ⟨rfl, rfl⟩
  · exact ⟨rfl, rfl⟩
  · exact ⟨rfl, rfl⟩

/-- `advance` leaves the node and the text buffer alone. -/
theorem advance_node_text (T : Tables Node State Symbol Rule Val Ctx) (fuel : Nat) (table : Ctx)
    (sym : Symbol) (val : Option Val) (s : Calculator Node State Symbol Val)
    (r : Bool × Calculator Node State Symbol Val × Ctx)
    (h : advance T fuel table sym val s = Run.ret r) :
    r.2.1.node = s.node ∧ r.2.1.text = s.text :=
  advance_preserves T (fun e => e.node = s.node ∧ e.text = s.text)
    (fun table1 sym1 val1 e p he hp =>
      ⟨(advance_body_node_text T table1 sym1 val1 e p hp).1.trans he.1,
       (advance_body_node_text T table1 sym1 val1 e p hp).2.trans he.2⟩)
    fuel table sym val s r ⟨rfl, rfl⟩ h

/-- A pass of the loop of `advance` keeps the lockstep and the sentinel. -/
theorem anchored_advance_body (T : Tables Node State Symbol Rule Val Ctx) (table : Ctx)
    (sym : Symbol) (val : Option Val) (s : Calculator Node State Symbol Val)
    (r : Option Bool × Calculator Node State Symbol Val × Ctx)
    (hs : Lockstep s ∧ Anchored T s) (h : advance_body T table sym val s = Run.ret r) :
    Lockstep r.2.1 ∧ Anchored T r.2.1 := by
  refine ⟨lockstep_advance_body T table sym val s r h hs.1, ?_⟩
  obtain ⟨⟨h1, h2⟩, ha⟩ := hs
  unfold Anchored at ha ⊢
  rw [advance_body_eq_ret] at h
  obtain ⟨top, -, h⟩ := h
  rcases h with ⟨next, -, rfl⟩ | ⟨-, -, rfl⟩ | ⟨-, rule, accept, result, table1, base, -, hle, -, -, rfl⟩
  · simp [push, ha]
  · exact ha
  · have hpos : s.states.length - (T.rule_nonterm rule).2 ≠ 0 := by omega
    simp [push, popped, List.head?_take, hpos, ha]

/-- `advance` keeps the lockstep and the sentinel. -/
theorem anchored_advance (T : Tables Node State Symbol Rule Val Ctx) (fuel : Nat) (table : Ctx)
    (sym : Symbol) (val : Option Val) (s : Calculator Node State Symbol Val)
    (r : Bool × Calculator Node State Symbol Val × Ctx)
    (hs : Lockstep s ∧ Anchored T s) (h : advance T fuel table sym val s = Run.ret r) :
    Lockstep r.2.1 ∧ Anchored T r.2.1 :=
  advance_preserves T (fun e => Lockstep e ∧ Anchored T e)
    (fun table1 sym1 val1 e p he hp => anchored_advance_body T table1 sym1 val1 e p he hp)
    fuel table sym val s r hs h

/-- When `advance` has returned `true`, the value stack is not empty. -/
theorem advance_true_values (T : Tables Node State Symbol Rule Val Ctx) (fuel : Nat) (table : Ctx)
    (sym : Symbol) (val : Option Val) (s s1 : Calculator Node State Symbol Val) (table1 : Ctx)
    (h : advance T fuel table sym val s = Run.ret (true, s1, table1)) :
    ∃ front, s1.values.head? = some front := by
  rw [advance_eq_ret_iff] at h
  obtain ⟨k, -, sk, tk, -, hlast⟩ := h
  rw [advance_body_eq_ret] at hlast
  obtain ⟨top, -, hcase⟩ := hlast
  have hpush : ∀ (state : State) (y : Symbol) (v : Option Val)
      (e : Calculator Node State Symbol Val), ∃ front, (push state y v e).values.head? = some front := by
    intro state y v e
    cases hv : e.values with
    | nil => exact ⟨v, by simp [push, hv]⟩
    | cons a rest => exact ⟨a, by simp [push, hv]⟩
  rcases hcase with ⟨next, -, heq⟩ | ⟨-, -, heq⟩ | ⟨-, rule, accept, result, t2, base, -, -, -, -, heq⟩
  · injection heq with _ heq
    injection heq with h1 _
    rw [h1]; exact hpush _ _ _ _
  · simp at heq
  · injection heq with _ heq
    injection heq with h1 _
    rw [h1]; exact hpush _ _ _ _

/-- Following the automaton over a text and one more character. -/
theorem follow_append (T : Tables Node State Symbol Rule Val Ctx) (node last : Node)
    (text : List Char) (c : Char) (h : follow T node text = some last) :
    follow T node (text ++ [c]) = T.node_next last c := by
  induction text generalizing node with
  | nil =>
    simp only [follow, Option.some.injEq] at h
    subst h
    simp only [List.nil_append, follow]
    cases T.node_next node c <;> rfl
  | cons d rest ih =>
    simp only [List.cons_append, follow] at h ⊢
    cases hd : T.node_next node d with
    | none => rw [hd] at h; simp at h
    | some next => rw [hd] at h; exact ih next h

/-- Non-accepting reductions keep the lockstep. -/
theorem lockstep_reductions (T : Tables Node State Symbol Rule Val Ctx) (sym : Symbol)
    (val : Option Val) (k : Nat) (s : Calculator Node State Symbol Val) (table : Ctx)
    (s1 : Calculator Node State Symbol Val) (table1 : Ctx)
    (h : Reductions T sym val k s table s1 table1) (hs : Lockstep s) : Lockstep s1 := by
  induction k generalizing s table with
  | zero => obtain ⟨rfl, -⟩ := h; exact hs
  | succ k ih =>
    obtain ⟨s2, t2, hb, hrest⟩ := h
    exact ih s2 t2 hrest (lockstep_advance_body T table sym val s _ hb hs)


/-- A decimal digit has a code from 48 to 57. -/
theorem isDigit_bounds (c : Char) (h : c.isDigit = true) : 48 ≤ c.toNat ∧ c.toNat ≤ 57 := by
  simp only [Char.isDigit, Bool.and_eq_true, decide_eq_true_eq] at h
  exact ⟨h.1, h.2⟩

/-- The decimal value of a text is not negative. -/
theorem decimal_nonneg (digits : List Char) (a : Int) (ha : 0 ≤ a) :
    0 ≤ digits.foldl (fun a d => 10 * a + ((d.toNat - 48 : Nat) : Int)) a := by
  induction digits generalizing a with
  | nil => exact ha
  | cons d rest ih =>
    simp only [List.foldl_cons]
    apply ih
    omega

/-- On a non-empty text of decimal digits `stoi` returns the decimal value when
it is at most `INT_MAX` and throws otherwise. -/
theorem stoi_digits (text : List Char) (hne : text ≠ [])
    (hd : ∀ c ∈ text, c.isDigit = true) :
    stoi text =
      if text.foldl (fun a d => 10 * a + ((d.toNat - 48 : Nat) : Int)) 0 ≤ INT_MAX then
        Run.ret (text.foldl (fun a d => 10 * a + ((d.toNat - 48 : Nat) : Int)) 0)
      else Run.raise := by
  obtain ⟨c, rest, rfl⟩ := List.exists_cons_of_ne_nil hne
  have hc := isDigit_bounds c (hd c (List.mem_cons_self _ _))
  have hsp : isspace c = false := by
    simp only [isspace, Bool.or_eq_false_iff, decide_eq_false_iff_not, Bool.and_eq_false_imp,
      decide_eq_true_eq]
    omega
  have hminus : c ≠ '-' := by
    rintro rfl
    have : ('-' : Char).toNat = 45 := rfl
    omega
  have hplus : c ≠ '+' := by
    rintro rfl
    have : ('+' : Char).toNat = 43 := rfl
    omega
  have htake : (c :: rest).takeWhile Char.isDigit = c :: rest :=
    List.takeWhile_eq_self_iff.mpr hd
  have hnn := decimal_nonneg (c :: rest) 0 (le_refl 0)
  have hmin : INT_MIN ≤ (c :: rest).foldl (fun a d => 10 * a + ((d.toNat - 48 : Nat) : Int)) 0 := by
    unfold INT_MIN; omega
  simp only [stoi, List.dropWhile_cons, hsp, List.head?_cons, Option.some.injEq, hminus,
    hplus, or_self, if_false, htake, decide_False, Bool.false_eq_true, reduceCtorEq, hmin,
    true_and]

/-- What `advance` keeps and changes of node and buffer do not touch, `scan` keeps. -/
theorem scan_preserves [DecidableEq Node] (T : Tables Node State Symbol Rule Val Ctx)
    (P : Calculator Node State Symbol Val → Prop)
    (hadv : ∀ fuel table sym val s r, P s → advance T fuel table sym val s = Run.ret r → P r.2.1)
    (hnt : ∀ (s : Calculator Node State Symbol Val) node text,
      P s → P { s with node := node, text := text })
    (fuel : Nat) (table : Ctx) (c : Char) (s : Calculator Node State Symbol Val)
    (r : Bool × Calculator Node State Symbol Val × Ctx)
    (hs : P s) (h : scan T fuel table c s = Run.ret r) : P r.2.1 := by
  induction fuel generalizing table s with
  | zero => simp [scan] at h
  | succ fuel ih =>
    unfold scan at h
    split at h
    · injection h with h; rw [← h]; exact hs
    · split at h
      · injection h with h; rw [← h]; exact hnt s _ _ hs
      · split at h
        · injection h with h; rw [← h]; exact hs
        · obtain ⟨v, -, h⟩ := Run.bind_eq_ret h
          obtain ⟨p, hp, h⟩ := Run.bind_eq_ret h
          have hl := hadv fuel _ _ _ s p hs hp
          split at h
          · exact ih _ _ (hnt _ _ _ hl) h
          · injection h with h; rw [← h]; exact hl

/-- What `advance` keeps, `scan_end` keeps. -/
theorem scan_end_preserves [DecidableEq Node] (T : Tables Node State Symbol Rule Val Ctx)
    (P : Calculator Node State Symbol Val → Prop)
    (hadv : ∀ fuel table sym val s r, P s → advance T fuel table sym val s = Run.ret r → P r.2.1)
    (fuel : Nat) (table : Ctx) (s : Calculator Node State Symbol Val)
    (r : Option Val × Calculator Node State Symbol Val × Ctx)
    (hs : P s) (h : scan_end T fuel table s = Run.ret r) : P r.2.1 := by
  have hmark : ∀ (t : Ctx) (e : Calculator Node State Symbol Val), P e →
      scan_end_mark T fuel t e = Run.ret r → P r.2.1 := by
    intro t e he hm
    unfold scan_end_mark at hm
    obtain ⟨p, hp, hm⟩ := Run.bind_eq_ret hm
    have hl := hadv fuel _ _ _ e p he hp
    split at hm
    · split at hm
      · simp at hm
      · injection hm with hm; rw [← hm]; exact hl
    · injection hm with hm; rw [← hm]; exact hl
  unfold scan_end at h
  split at h
  · obtain ⟨v, -, h⟩ := Run.bind_eq_ret h
    obtain ⟨p, hp, h⟩ := Run.bind_eq_ret h
    have hl := hadv fuel _ _ _ s p hs hp
    split at h
    · exact hmark _ _ hl h
    · injection h with h; rw [← h]; exact hl
  · split at h
    · injection h with h; rw [← h]; exact hs
    · exact hmark _ _ hs h

/-- `scan_end` leaves the node and the text buffer as they were. -/
theorem scan_end_node_text [DecidableEq Node] (T : Tables Node State Symbol Rule Val Ctx)
    (fuel : Nat) (table : Ctx) (s : Calculator Node State Symbol Val)
    (r : Option Val × Calculator Node State Symbol Val × Ctx)
    (h : scan_end T fuel table s = Run.ret r) :
    r.2.1.node = s.node ∧ r.2.1.text = s.text :=
  scan_end_preserves T (fun e => e.node = s.node ∧ e.text = s.text)
    (fun fuel1 table1 sym val e p he hp =>
      ⟨(advance_node_text T fuel1 table1 sym val e p hp).1.trans he.1,
       (advance_node_text T fuel1 table1 sym val e p hp).2.trans he.2⟩)
    fuel table s r ⟨rfl, rfl⟩ h

/-- `scan` keeps the agreement of buffer and node: the buffer drives the
automaton from the initial node to the current node. -/
theorem follow_scan [DecidableEq Node] (T : Tables Node State Symbol Rule Val Ctx)
    (fuel : Nat) (table : Ctx) (c : Char) (s : Calculator Node State Symbol Val)
    (r : Bool × Calculator Node State Symbol Val × Ctx)
    (hs : follow T T.node0 s.text = some s.node) (h : scan T fuel table c s = Run.ret r) :
    follow T T.node0 r.2.1.text = some r.2.1.node := by
  induction fuel generalizing table s with
  | zero => simp [scan] at h
  | succ fuel ih =>
    unfold scan at h
    split at h
    · injection h with h; rw [← h]; exact hs
    · split at h
      · rename_i next hn
        injection h with h
        rw [← h]
        exact (follow_append T T.node0 s.node s.text c hs).trans hn
      · split at h
        · injection h with h; rw [← h]; exact hs
        · obtain ⟨v, -, h⟩ := Run.bind_eq_ret h
          obtain ⟨p, hp, h⟩ := Run.bind_eq_ret h
          split at h
          · exact ih _ { p.2.1 with node := T.node0, text := [] } rfl h
          · injection h with h
            rw [← h]
            obtain ⟨h1, h2⟩ := advance_node_text T fuel _ _ _ s p hp
            simp only [h1, h2]
            exact hs

/-- A reduction pass in a state in lockstep: the state `base` that the removal
exposes exists, and the pass returns with the frame of the nonterminal pushed on
it, whatever value accompanies `sym`. -/
theorem reduce_pass (T : Tables Node State Symbol Rule Val Ctx) (table : Ctx)
    (sym : Symbol) (s : Calculator Node State Symbol Val) (top : State)
    (rule : Rule) (accept : Bool) (result : Option Val) (table1 : Ctx)
    (hl : Lockstep s) (htop : s.states.getLast? = some top)
    (hshift : T.find_shift top sym = none) (hred : T.find_reduce top sym = some (rule, accept))
    (hn : (T.rule_nonterm rule).2 ≤ s.values.length)
    (hact : T.action rule table (s.values.drop (s.values.length - (T.rule_nonterm rule).2)) =
      Run.ret (result, table1)) :
    ∃ base, (s.states.take (s.states.length - (T.rule_nonterm rule).2)).getLast? = some base ∧
      ∀ val, advance_body T table sym val s =
        Run.ret (if accept = true then some true else none,
          push (T.find_goto base (T.rule_nonterm rule).1) (T.rule_nonterm rule).1 result
            (popped (T.rule_nonterm rule).2 s),
          table1) := by
  obtain ⟨h1, h2⟩ := hl
  have hne : s.states.take (s.states.length - (T.rule_nonterm rule).2) ≠ [] := by
    intro h
    have := congrArg List.length h
    simp only [List.length_take, List.length_nil] at this
    omega
  refine ⟨_, List.getLast?_eq_getLast _ hne, fun val => ?_⟩
  rw [advance_body_eq_ret]
  exact ⟨top, htop, Or.inr (Or.inr ⟨hshift, rule, accept, result, table1, _, hred,
    ⟨by omega, by omega, hn⟩, hact, List.getLast?_eq_getLast _ hne, rfl⟩)⟩

end Engine

/-! ## The claims -/

section Claims

variable {Node State Symbol Rule Val Ctx : Type}

/-- C1, as stated, fails right after `start()`: the state reached by `start()`
has one state on the state stack and empty symbol and value stacks, so the three
lengths are not equal and the symbol and value stacks are not of length at least 1. -/
theorem start_lengths_differ :
    Reachable exprTables (start exprTables engine0) ∧
    (start exprTables engine0).states.length = 1 ∧
    (start exprTables engine0).symbols.length = 0 ∧
    (start exprTables engine0).values.length = 0 ∧
    ¬ ((start exprTables engine0).states.length = (start exprTables engine0).symbols.length ∧
       (start exprTables engine0).symbols.length = (start exprTables engine0).values.length ∧
       1 ≤ (start exprTables engine0).values.length) :=
  ⟨Reachable.start engine0, rfl, rfl, rfl, by decide⟩

/-- C1, amended: in every engine state reachable from `start()` by calls of
`scan`, `advance` and `scan_end` that return, the state stack holds exactly one
entry more than the symbol stack, the symbol and value stacks have the same
length, and the state stack is not empty. -/
theorem reachable_lockstep [DecidableEq Node] (T : Tables Node State Symbol Rule Val Ctx)
    (s : Calculator Node State Symbol Val) (h : Reachable T s) :
    s.states.length = s.symbols.length + 1 ∧ s.symbols.length = s.values.length ∧
      1 ≤ s.states.length := by
  have hl : Lockstep s := by
    induction h with
    | start s0 => exact lockstep_start T s0
    | scan fuel table c s1 r _ hr ih => exact lockstep_scan T fuel table c s1 r hr ih
    | advance fuel table sym val s1 r _ hr ih => exact lockstep_advance T fuel table sym val s1 r hr ih
    | scan_end fuel table s1 r _ hr ih => exact lockstep_scan_end T fuel table s1 r hr ih
  exact ⟨hl.1, hl.2, by have := hl.1; omega⟩

/-- Witness of C1: the state after `start()` and the characters `1`, `+` on the
expression tables is reachable and has stacks of lengths 2, 1 and 1. -/
theorem reachable_lockstep_witness :
    Reachable exprTables
      ({ states := [0, 5], symbols := [Sym.num], values := [some (Value.Num 1)],
         node := 2, text := ['+'] } : Calculator Nat Nat Sym Value) ∧
    ([0, 5].length = [Sym.num].length + 1 ∧
      [Sym.num].length = [some (Value.Num 1)].length ∧ 1 ≤ [0, 5].length) :=
  have hr : Reachable exprTables
      ({ states := [0, 5], symbols := [Sym.num], values := [some (Value.Num 1)],
         node := 2, text := ['+'] } : Calculator Nat Nat Sym Value) :=
    Reachable.scan 3 table0 '+' { states := [0], symbols := [], values := [], node := 1, text := ['1'] }
      (true, { states := [0, 5], symbols := [Sym.num], values := [some (Value.Num 1)],
               node := 2, text := ['+'] }, table0)
      (Reachable.scan 3 table0 '1' (start exprTables engine0)
        (true, { states := [0], symbols := [], values := [], node := 1, text := ['1'] }, table0)
        (Reachable.start engine0) (by decide))
      (by decide)
  ⟨hr, reachable_lockstep exprTables _ hr⟩

/-- C2: if the state on top of the state stack has a shift target `next` for
`sym`, then `advance` returns `true` in its first pass, the stacks are the old
ones with the one frame `(next, sym, val)` pushed, and the context is unchanged.
The tables are arbitrary: a reduce entry of the same state for `sym` is not
consulted and no action runs (the result does not depend on `find_reduce` or
`action`, whose outcome could be `undefined`). -/
theorem advance_shift (T : Tables Node State Symbol Rule Val Ctx) (fuel : Nat) (table : Ctx)
    (sym : Symbol) (val : Option Val) (s : Calculator Node State Symbol Val) (top next : State)
    (htop : s.states.getLast? = some top) (hshift : T.find_shift top sym = some next) :
    advance T (fuel + 1) table sym val s =
      Run.ret (true,
        { states := s.states ++ [next], symbols := s.symbols ++ [sym], values := s.values ++ [val],
          node := s.node, text := s.text },
        table) := by
  rw [advance_succ]
  simp [advance_body, htop, hshift, push]

/-- Witness of C2: in `conflictTables` state 0 has a shift and a reduce entry for
`num` (the reduce entry is for a rule of length 3, which on the empty value stack
would be undefined); `advance` shifts. -/
theorem advance_shift_witness :
    (start conflictTables engine0).states.getLast? = some 0 ∧
    conflictTables.find_shift 0 Sym.num = some 1 ∧
    conflictTables.find_reduce 0 Sym.num = some (ERule.add, false) ∧
    advance conflictTables (0 + 1) table0 Sym.num (some (Value.Num 4)) (start conflictTables engine0) =
      Run.ret (true,
        { states := (start conflictTables engine0).states ++ [1],
          symbols := (start conflictTables engine0).symbols ++ [Sym.num],
          values := (start conflictTables engine0).values ++ [some (Value.Num 4)],
          node := (start conflictTables engine0).node,
          text := (start conflictTables engine0).text },
        table0) :=
  ⟨rfl, rfl, rfl,
    advance_shift conflictTables 0 table0 Sym.num (some (Value.Num 4))
      (start conflictTables engine0) 0 1 rfl rfl⟩

/-- C3: in an engine state in lockstep whose top state has no shift for `sym` but
a reduce entry `(rule, accept)` of length `n ≤ values.size()`, one pass of the
loop of `advance` hands the context and exactly the top `n` values, bottom-to-top
(`values.drop (values.length - n)`), to the rule's action; when that returns
`result`, the top `n` entries of each stack are removed and the one frame
`(find_goto base lhs, lhs, result)` is pushed, `base` being the state exposed by
the removal. Each length changes by `1 - n`; the entries below are untouched
(`take`). The pass ends the call with `true` if `accept`, else the loop goes on. -/
theorem advance_body_reduce (T : Tables Node State Symbol Rule Val Ctx) (table : Ctx)
    (sym : Symbol) (val : Option Val) (s : Calculator Node State Symbol Val) (top : State)
    (rule : Rule) (accept : Bool) (result : Option Val) (table1 : Ctx)
    (hl : Lockstep s) (htop : s.states.getLast? = some top)
    (hshift : T.find_shift top sym = none) (hred : T.find_reduce top sym = some (rule, accept))
    (hn : (T.rule_nonterm rule).2 ≤ s.values.length)
    (hact : T.action rule table (s.values.drop (s.values.length - (T.rule_nonterm rule).2)) =
      Run.ret (result, table1)) :
    rule_reduce T rule table s.values =
      T.action rule table (s.values.drop (s.values.length - (T.rule_nonterm rule).2)) ∧
    ∃ base, (s.states.take (s.states.length - (T.rule_nonterm rule).2)).getLast? = some base ∧
      advance_body T table sym val s =
        Run.ret (if accept = true then some true else none,
          { states := s.states.take (s.states.length - (T.rule_nonterm rule).2) ++
              [T.find_goto base (T.rule_nonterm rule).1]
            symbols := s.symbols.take (s.symbols.length - (T.rule_nonterm rule).2) ++
              [(T.rule_nonterm rule).1]
            values := s.values.take (s.values.length - (T.rule_nonterm rule).2) ++ [result]
            node := s.node
            text := s.text },
          table1) ∧
      (s.states.take (s.states.length - (T.rule_nonterm rule).2) ++
          [T.find_goto base (T.rule_nonterm rule).1]).length + (T.rule_nonterm rule).2 =
        s.states.length + 1 ∧
      (s.symbols.take (s.symbols.length - (T.rule_nonterm rule).2) ++
          [(T.rule_nonterm rule).1]).length + (T.rule_nonterm rule).2 = s.symbols.length + 1 ∧
      (s.values.take (s.values.length - (T.rule_nonterm rule).2) ++ [result]).length +
          (T.rule_nonterm rule).2 = s.values.length + 1 := by
  obtain ⟨h1, h2⟩ := hl
  refine ⟨by unfold rule_reduce; rw [if_pos hn], ?_⟩
  have hne : s.states.take (s.states.length - (T.rule_nonterm rule).2) ≠ [] := by
    intro h
    have := congrArg List.length h
    simp only [List.length_take, List.length_nil] at this
    omega
  obtain ⟨base, hbase⟩ : ∃ base,
      (s.states.take (s.states.length - (T.rule_nonterm rule).2)).getLast? = some base :=
    ⟨_, List.getLast?_eq_getLast _ hne⟩
  refine ⟨base, hbase, ?_, ?_, ?_, ?_⟩
  · rw [advance_body_eq_ret]
    refine ⟨top, htop, Or.inr (Or.inr ⟨hshift, rule, accept, result, table1, base, hred,
      ⟨by omega, by omega, hn⟩, hact, hbase, rfl⟩)⟩
  · simp only [List.length_append, List.length_take, List.length_singleton]; omega
  · simp only [List.length_append, List.length_take, List.length_singleton]; omega
  · simp only [List.length_append, List.length_take, List.length_singleton]; omega

/-- Witness of C3: on `sumState` the end-marker reduces `E -> E + T`; the action
gets the three values `1`, null, `2`, the three frames go and `(1, E, 3)` is
pushed on the exposed state 0. -/
theorem advance_body_reduce_witness :
    (Lockstep sumState ∧ sumState.states.getLast? = some 9 ∧
      exprTables.find_shift 9 Sym.endmark = none ∧
      exprTables.find_reduce 9 Sym.endmark = some (ERule.add, false) ∧
      (exprTables.rule_nonterm ERule.add).2 ≤ sumState.values.length ∧
      exprTables.action ERule.add table0 [some (Value.Num 1), none, some (Value.Num 2)] =
        Run.ret (some (Value.Num 3), table0)) ∧
    (rule_reduce exprTables ERule.add table0 sumState.values =
        exprTables.action ERule.add table0 [some (Value.Num 1), none, some (Value.Num 2)] ∧
      ∃ base, [0].getLast? = some base ∧
        advance_body exprTables table0 Sym.endmark none sumState =
          Run.ret (none,
            { states := [0] ++ [exprTables.find_goto base Sym.E]
              symbols := [] ++ [Sym.E]
              values := [] ++ [some (Value.Num 3)]
              node := 0
              text := [] },
            table0) ∧
        ([0] ++ [exprTables.find_goto base Sym.E]).length + 3 = 4 + 1 ∧
        (([] : List Sym) ++ [Sym.E]).length + 3 = 3 + 1 ∧
        (([] : List (Option Value)) ++ [some (Value.Num 3)]).length + 3 = 3 + 1) :=
  ⟨⟨⟨rfl, rfl⟩, rfl, rfl, rfl, by decide, rfl⟩,
    advance_body_reduce exprTables table0 Sym.endmark none sumState 9 ERule.add false
      (some (Value.Num 3)) table0 ⟨rfl, rfl⟩ rfl rfl rfl (by decide) rfl⟩

/-- C4, as stated, fails when the initial node is itself accepting. On
`emptyTables` the node after `1` is not the initial node, accepts `num`, has no
transition for `?`, and the parser accepts the token `(num, 1)`; but `scan` then
meets `?` at the initial node, which has no transition for it and accepts `plus`,
and sends a second token `(plus, null)` made from the empty text to the parser.
Both tokens are on the stacks when `scan` returns `false`. -/
theorem scan_emits_second_token :
    oneState.node ≠ emptyTables.node0 ∧
    emptyTables.node_accept oneState.node = some Sym.num ∧
    emptyTables.node_next oneState.node '?' = none ∧
    emptyTables.node_scan oneState.node table0 oneState.text =
      Run.ret (some (Value.Num 1), table0) ∧
    advance emptyTables 1 table0 Sym.num (some (Value.Num 1)) oneState =
      Run.ret (true,
        { states := [0, 1], symbols := [Sym.num], values := [some (Value.Num 1)],
          node := 1, text := ['1'] }, table0) ∧
    isspace '?' = false ∧
    emptyTables.node_next emptyTables.node0 '?' = none ∧
    scan emptyTables 4 table0 '?' oneState =
      Run.ret (false,
        { states := [0, 1, 2], symbols := [Sym.num, Sym.plus],
          values := [some (Value.Num 1), none], node := 0, text := [] }, table0) := by
  decide

/-- C4, amended: when the node is not the initial node, accepts `A`, has no
transition for `c`, the scan function returns `v` on the whole buffer and the
parser accepts the token (`advance` returns `true`), then `scan` ends with the
stacks and context that this one `advance` of `(A, v)` left, and `c` has been
processed again from the initial node: if `c` is white space, `scan` returns
`true` at the initial node with an empty buffer; if the initial node has a
transition on `c`, `scan` returns `true` at its target with buffer `[c]`; if
neither holds, `scan` never returns `true` (`c` is not dropped), and if moreover
the initial node has no accepting symbol it returns `false` with only that one
token sent to the parser. Run on `shiftTables`, the input `1 2` followed by
finish puts exactly the tokens `(num, 1)`, `(num, 2)` and the end-marker on the
stacks and succeeds. -/
theorem scan_finalise_replay [DecidableEq Node] (T : Tables Node State Symbol Rule Val Ctx)
    (fuel : Nat) (table : Ctx) (c : Char) (s : Calculator Node State Symbol Val) (A : Symbol)
    (v : Option Val) (table1 : Ctx) (s1 : Calculator Node State Symbol Val) (table2 : Ctx)
    (hnode : s.node ≠ T.node0) (hacc : T.node_accept s.node = some A)
    (hnext : T.node_next s.node c = none)
    (hscan : T.node_scan s.node table s.text = Run.ret (v, table1))
    (hadv : advance T fuel table1 A v s = Run.ret (true, s1, table2)) :
    (isspace c = true →
      scan T (fuel + 2) table c s =
        Run.ret (true, { s1 with node := T.node0, text := [] }, table2)) ∧
    (isspace c = false → ∀ next, T.node_next T.node0 c = some next →
      scan T (fuel + 2) table c s =
        Run.ret (true, { s1 with node := next, text := [c] }, table2)) ∧
    (isspace c = false → T.node_next T.node0 c = none → T.node_accept T.node0 = none →
      scan T (fuel + 2) table c s =
        Run.ret (false, { s1 with node := T.node0, text := [] }, table2)) ∧
    (isspace c = false → T.node_next T.node0 c = none →
      ∀ enough r, scan T enough table c s = Run.ret r → r.1 = false) ∧
    (∀ (more : Nat) (t : Table) (e : Calculator Nat Nat Sym Value),
      main_run shiftTables (2 + more) ['1', ' ', '2'] t e =
        Run.ret (some (Value.Num 1),
          { states := [0, 1, 2, 3], symbols := [Sym.num, Sym.num, Sym.endmark],
            values := [some (Value.Num 1), some (Value.Num 2), none],
            node := 1, text := ['2'] }, t)) := by
  have first : scan T (fuel + 2) table c s =
      scan T (fuel + 1) table2 c { s1 with node := T.node0, text := [] } := by
    rw [scan]
    have hc : ¬ (s.node = T.node0 ∧ isspace c = true) := fun h => hnode h.1
    rw [if_neg hc]
    simp only [hnext, hacc, hscan, Run.bind_ret]
    rw [advance_mono T fuel 1 table1 A v s _ hadv]
    rfl
  refine ⟨?_, ?_, ?_, ?_, ?_⟩
  · intro hsp
    rw [first, scan]
    simp [hsp]
  · intro hsp next hn
    rw [first, scan]
    simp [hsp, hn]
  · intro hsp hn h0
    rw [first, scan]
    simp [hsp, hn, h0]
  · intro hsp hn enough r hr
    cases enough with
    | zero => simp [scan] at hr
    | succ enough =>
      unfold scan at hr
      have hc : ¬ (s.node = T.node0 ∧ isspace c = true) := fun h => hnode h.1
      rw [if_neg hc] at hr
      simp only [hnext, hacc, hscan, Run.bind_ret] at hr
      obtain ⟨p, -, hr⟩ := Run.bind_eq_ret hr
      split at hr
      · exact scan_at_node0_not_true T c hsp hn enough _ _ r rfl hr
      · injection hr with hr; rw [← hr]
  · intro more t e
    have h1 : scan shiftTables 2 t '1' (start shiftTables e) =
        Run.ret (true,
          { states := [0], symbols := [], values := [], node := 1, text := ['1'] }, t) := rfl
    have h2 : scan shiftTables 2 t ' '
        { states := [0], symbols := [], values := [], node := 1, text := ['1'] } =
        Run.ret (true,
          { states := [0, 1], symbols := [Sym.num], values := [some (Value.Num 1)],
            node := 0, text := [] }, t) := rfl
    have h3 : scan shiftTables 2 t '2'
        { states := [0, 1], symbols := [Sym.num], values := [some (Value.Num 1)],
          node := 0, text := [] } =
        Run.ret (true,
          { states := [0, 1], symbols := [Sym.num], values := [some (Value.Num 1)],
            node := 1, text := ['2'] }, t) := rfl
    have h4 : scan_end shiftTables 2 t
        { states := [0, 1], symbols := [Sym.num], values := [some (Value.Num 1)],
          node := 1, text := ['2'] } =
        Run.ret (some (Value.Num 1),
          { states := [0, 1, 2, 3], symbols := [Sym.num, Sym.num, Sym.endmark],
            values := [some (Value.Num 1), some (Value.Num 2), none],
            node := 1, text := ['2'] }, t) := rfl
    exact main_loop_mono shiftTables 2 more _ t _ _
      ((main_loop_cons shiftTables 2 _ _ t t _ _ h1).trans
        ((main_loop_cons shiftTables 2 _ _ t t _ _ h2).trans
          ((main_loop_cons shiftTables 2 _ _ t t _ _ h3).trans h4)))

/-- Witness of C4: on the expression tables, a space after the number `1`. -/
theorem scan_finalise_replay_witness :
    (oneState.node ≠ exprTables.node0 ∧
      exprTables.node_accept oneState.node = some Sym.num ∧
      exprTables.node_next oneState.node ' ' = none ∧
      exprTables.node_scan oneState.node table0 oneState.text =
        Run.ret (some (Value.Num 1), table0) ∧
      advance exprTables 1 table0 Sym.num (some (Value.Num 1)) oneState =
        Run.ret (true,
          { states := [0, 5], symbols := [Sym.num], values := [some (Value.Num 1)],
            node := 1, text := ['1'] }, table0)) ∧
    (isspace ' ' = true →
      scan exprTables (1 + 2) table0 ' ' oneState =
        Run.ret (true,
          { states := [0, 5], symbols := [Sym.num], values := [some (Value.Num 1)],
            node := 0, text := [] }, table0)) :=
  ⟨⟨by decide, rfl, rfl, rfl, rfl⟩,
    (scan_finalise_replay exprTables 1 table0 ' ' oneState Sym.num (some (Value.Num 1)) table0
      { states := [0, 5], symbols := [Sym.num], values := [some (Value.Num 1)],
        node := 1, text := ['1'] } table0 (by decide) rfl rfl rfl rfl).1⟩

/-- C5, as stated, fails on `tailTables`: after `1 2`, finish succeeds and the
advance of the end-marker ends with the accepting reduction of `S -> E` (length
1), whose result is the number 2; the value stack then holds two values and
finish returns its bottom, the number 1. -/
theorem scan_end_returns_bottom :
    main_loop tailTables 2 ['1', ' ', '2'] table0 (start tailTables engine0) =
      scan_end tailTables 2 table0 pendingState ∧
    scan_end tailTables 2 table0 pendingState =
      Run.ret (some (Value.Num 1),
        { states := [0, 1, 3], symbols := [Sym.num, Sym.S],
          values := [some (Value.Num 1), some (Value.Num 2)], node := 1, text := ['2'] },
        table0) ∧
    ([some (Value.Num 1), some (Value.Num 2)] : List (Option Value)).length ≠ 1 ∧
    Value.Num 1 ≠ Value.Num 2 ∧
    tailTables.find_shift 2 Sym.endmark = none ∧
    tailTables.find_reduce 2 Sym.endmark = some (ERule.total, true) ∧
    tailTables.action ERule.total table0 [some (Value.Num 2)] =
      Run.ret (some (Value.Num 2), table0) ∧
    advance_body tailTables table0 Sym.endmark none
        { states := [0, 1, 2], symbols := [Sym.num, Sym.num],
          values := [some (Value.Num 1), some (Value.Num 2)], node := 1, text := ['2'] } =
      Run.ret (some true,
        { states := [0, 1, 3], symbols := [Sym.num, Sym.S],
          values := [some (Value.Num 1), some (Value.Num 2)], node := 1, text := ['2'] },
        table0) :=
  ⟨by decide, by decide, by decide, by decide, rfl, rfl, rfl, by decide⟩

/-- C5, amended: when `scan_end` succeeds with the value `v`, the advance of
the end-marker was entered (`MarkEntry`), made some non-accepting reductions
and ended with a pass that returned `true`, and `v` is `values.front()`, the
bottom of the value stack. If that last pass is an accepting reduction, the value stack
then holds exactly one value exactly if the rule's length equals the number of
values on the stack before the reduction, and in that case the value returned is
the result of the rule's action (applied to the whole value stack). -/
theorem scan_end_result [DecidableEq Node] (T : Tables Node State Symbol Rule Val Ctx)
    (fuel : Nat) (table : Ctx) (s : Calculator Node State Symbol Val) (v : Val)
    (s1 : Calculator Node State Symbol Val) (table1 : Ctx)
    (h : scan_end T fuel table s = Run.ret (some v, s1, table1)) :
    ∃ s0 t0 k sk tk, MarkEntry T fuel table s s0 t0 ∧
      Reductions T T.endmark none k s0 t0 sk tk ∧
      advance_body T tk T.endmark none sk = Run.ret (some true, s1, table1) ∧
      s1.values.head? = some (some v) ∧
      ∀ top rule, sk.states.getLast? = some top → T.find_shift top T.endmark = none →
        T.find_reduce top T.endmark = some (rule, true) →
        (s1.values.length = 1 ↔ (T.rule_nonterm rule).2 = sk.values.length) ∧
        ((T.rule_nonterm rule).2 = sk.values.length →
          s1.values = [some v] ∧ T.action rule tk sk.values = Run.ret (some v, table1)) := by
  obtain ⟨s0, t0, hentry, hadv, hfront⟩ := scan_end_some T fuel table s v s1 table1 h
  rw [advance_eq_ret_iff] at hadv
  obtain ⟨k, -, sk, tk, hred, hlast⟩ := hadv
  refine ⟨s0, t0, k, sk, tk, hentry, hred, hlast, hfront, ?_⟩
  intro top rule htop hshift hrule
  rw [advance_body_eq_ret] at hlast
  obtain ⟨top1, htop1, hcase⟩ := hlast
  rw [htop] at htop1
  injection htop1 with htop1
  subst htop1
  rcases hcase with ⟨next, hn, -⟩ | ⟨-, hn, -⟩ |
    ⟨-, rule1, accept, result, t2, base, hr, hle, hact, -, heq⟩
  · rw [hshift] at hn; simp at hn
  · rw [hrule] at hn; simp at hn
  · rw [hrule] at hr
    injection hr with hr
    injection hr with hr1 hr2
    subst hr1 hr2
    injection heq with _ heq
    injection heq with hs1 ht
    subst hs1 ht
    have hlen : (push (T.find_goto base (T.rule_nonterm rule).1) (T.rule_nonterm rule).1 result
        (popped (T.rule_nonterm rule).2 sk)).values.length =
        sk.values.length - (T.rule_nonterm rule).2 + 1 := by
      simp only [push, popped, List.length_append, List.length_take, List.length_singleton]
      omega
    refine ⟨by rw [hlen]; omega, ?_⟩
    intro hall
    have hvals : (push (T.find_goto base (T.rule_nonterm rule).1) (T.rule_nonterm rule).1 result
        (popped (T.rule_nonterm rule).2 sk)).values = [result] := by
      simp [push, popped, hall]
    rw [hvals] at hfront ⊢
    simp only [List.head?_cons, Option.some.injEq] at hfront
    subst hfront
    rw [hall, Nat.sub_self, List.drop_zero] at hact
    exact ⟨rfl, hact⟩

/-- Witness of C5: on the expression tables, finish after the number `5`. -/
theorem scan_end_result_witness :
    scan_end exprTables 5 table0 fiveState =
      Run.ret (some (Value.Num 5),
        { states := [0, 12], symbols := [Sym.S], values := [some (Value.Num 5)],
          node := 1, text := ['5'] }, table0) ∧
    ∃ s0 t0 k sk tk, MarkEntry exprTables 5 table0 fiveState s0 t0 ∧
      Reductions exprTables Sym.endmark none k s0 t0 sk tk ∧
      advance_body exprTables tk Sym.endmark none sk =
        Run.ret (some true,
          { states := [0, 12], symbols := [Sym.S], values := [some (Value.Num 5)],
            node := 1, text := ['5'] }, table0) ∧
      [some (Value.Num 5)].head? = some (some (Value.Num 5)) ∧
      ∀ top rule, sk.states.getLast? = some top →
        exprTables.find_shift top Sym.endmark = none →
        exprTables.find_reduce top Sym.endmark = some (rule, true) →
        ([some (Value.Num 5)].length = 1 ↔ (exprTables.rule_nonterm rule).2 = sk.values.length) ∧
        ((exprTables.rule_nonterm rule).2 = sk.values.length →
          [some (Value.Num 5)] = [some (Value.Num 5)] ∧
          exprTables.action rule tk sk.values = Run.ret (some (Value.Num 5), table0)) :=
  ⟨by decide,
    scan_end_result exprTables 5 table0 fiveState (Value.Num 5)
      { states := [0, 12], symbols := [Sym.S], values := [some (Value.Num 5)],
        node := 1, text := ['5'] } table0 (by decide)⟩

set_option maxHeartbeats 4000000 in
/-- C7: on the hand-built SLR(1) tables `exprTables` for `E -> E + T | T`,
`T -> T * F | F`, `F -> ( E ) | num`, with `reduce_add_mul`, `reduce_mul_int`,
`reduce_paren` and `scan_num`, the run of `main` (`start()`, one `scan` per
character, `scan_end`) on `1+2*3` returns the number 7 and on `(1+2)*3` the
number 9, from every engine state and context and with any fuel from 5 on. In the
first run the advance of `+` makes three reductions before it shifts `+`: it
returns with 4 passes and not with 3. -/
theorem expr_precedence (fuel : Nat) (table : Table) (s : Calculator Nat Nat Sym Value) :
    main_run exprTables (5 + fuel) ['1', '+', '2', '*', '3'] table s =
      Run.ret (some (Value.Num 7),
        { states := [0, 12], symbols := [Sym.S], values := [some (Value.Num 7)],
          node := 1, text := ['3'] }, table) ∧
    main_run exprTables (5 + fuel) ['(', '1', '+', '2', ')', '*', '3'] table s =
      Run.ret (some (Value.Num 9),
        { states := [0, 12], symbols := [Sym.S], values := [some (Value.Num 9)],
          node := 1, text := ['3'] }, table) ∧
    Reductions exprTables Sym.plus none 3
      { states := [0, 5], symbols := [Sym.num], values := [some (Value.Num 1)],
        node := 2, text := ['+'] } table
      { states := [0, 1], symbols := [Sym.E], values := [some (Value.Num 1)],
        node := 2, text := ['+'] } table ∧
    advance exprTables 3 table Sym.plus none
      { states := [0, 5], symbols := [Sym.num], values := [some (Value.Num 1)],
        node := 2, text := ['+'] } = Run.timeout ∧
    advance exprTables (4 + fuel) table Sym.plus none
      { states := [0, 5], symbols := [Sym.num], values := [some (Value.Num 1)],
        node := 2, text := ['+'] } =
      Run.ret (true,
        { states := [0, 1, 6], symbols := [Sym.E, Sym.plus],
          values := [some (Value.Num 1), none], node := 2, text := ['+'] }, table) :=
  have a1 : scan exprTables 5 table '1'
      (start exprTables s) =
      Run.ret (true,
      { states := [0], symbols := [], values := [],
        node := 1, text := ['1'] }, table) := rfl
  have a2 : scan exprTables 5 table '+'
      { states := [0], symbols := [], values := [],
        node := 1, text := ['1'] } =
      Run.ret (true,
      { states := [0, 5], symbols := [Sym.num], values := [some (Value.Num 1)],
        node := 2, text := ['+'] }, table) := rfl
  have a3 : scan exprTables 5 table '2'
      { states := [0, 5], symbols := [Sym.num], values := [some (Value.Num 1)],
        node := 2, text := ['+'] } =
      Run.ret (true,
      { states := [0, 1, 6], symbols := [Sym.E, Sym.plus], values := [some (Value.Num 1), none],
        node := 1, text := ['2'] }, table) := rfl
  have a4 : scan exprTables 5 table '*'
      { states := [0, 1, 6], symbols := [Sym.E, Sym.plus], values := [some (Value.Num 1), none],
        node := 1, text := ['2'] } =
      Run.ret (true,
      { states := [0, 1, 6, 5], symbols := [Sym.E, Sym.plus, Sym.num], values := [some (Value.Num 1), none, some (Value.Num 2)],
        node := 3, text := ['*'] }, table) := rfl
  have a5 : scan exprTables 5 table '3'
      { states := [0, 1, 6, 5], symbols := [Sym.E, Sym.plus, Sym.num], values := [some (Value.Num 1), none, some (Value.Num 2)],
        node := 3, text := ['*'] } =
      Run.ret (true,
      { states := [0, 1, 6, 9, 7], symbols := [Sym.E, Sym.plus, Sym.T, Sym.times], values := [some (Value.Num 1), none, some (Value.Num 2), none],
        node := 1, text := ['3'] }, table) := rfl
  have ae : scan_end exprTables 5 table
      { states := [0, 1, 6, 9, 7], symbols := [Sym.E, Sym.plus, Sym.T, Sym.times], values := [some (Value.Num 1), none, some (Value.Num 2), none],
        node := 1, text := ['3'] } =
      Run.ret (some (Value.Num 7),
        { states := [0, 12], symbols := [Sym.S], values := [some (Value.Num 7)],
          node := 1, text := ['3'] }, table) := rfl
  have h7 : main_loop exprTables 5 ['1', '+', '2', '*', '3'] table (start exprTables s) =
      Run.ret (some (Value.Num 7),
        { states := [0, 12], symbols := [Sym.S], values := [some (Value.Num 7)],
          node := 1, text := ['3'] }, table) :=
    (main_loop_cons exprTables 5 _ _ table table _ _ a1).trans
      ((main_loop_cons exprTables 5 _ _ table table _ _ a2).trans
      ((main_loop_cons exprTables 5 _ _ table table _ _ a3).trans
      ((main_loop_cons exprTables 5 _ _ table table _ _ a4).trans
      ((main_loop_cons exprTables 5 _ _ table table _ _ a5).trans
      (ae)))))
  have b1 : scan exprTables 5 table '('
      (start exprTables s) =
      Run.ret (true,
      { states := [0], symbols := [], values := [],
        node := 4, text := ['('] }, table) := rfl
  have b2 : scan exprTables 5 table '1'
      { states := [0], symbols := [], values := [],
        node := 4, text := ['('] } =
      Run.ret (true,
      { states := [0, 4], symbols := [Sym.lparen], values := [none],
        node := 1, text := ['1'] }, table) := rfl
  have b3 : scan exprTables 5 table '+'
      { states := [0, 4], symbols := [Sym.lparen], values := [none],
        node := 1, text := ['1'] } =
      Run.ret (true,
      { states := [0, 4, 5], symbols := [Sym.lparen, Sym.num], values := [none, some (Value.Num 1)],
        node := 2, text := ['+'] }, table) := rfl
  have b4 : scan exprTables 5 table '2'
      { states := [0, 4, 5], symbols := [Sym.lparen, Sym.num], values := [none, some (Value.Num 1)],
        node := 2, text := ['+'] } =
      Run.ret (true,
      { states := [0, 4, 8, 6], symbols := [Sym.lparen, Sym.E, Sym.plus], values := [none, some (Value.Num 1), none],
        node := 1, text := ['2'] }, table) := rfl
  have b5 : scan exprTables 5 table ')'
      { states := [0, 4, 8, 6], symbols := [Sym.lparen, Sym.E, Sym.plus], values := [none, some (Value.Num 1), none],
        node := 1, text := ['2'] } =
      Run.ret (true,
      { states := [0, 4, 8, 6, 5], symbols := [Sym.lparen, Sym.E, Sym.plus, Sym.num], values := [none, some (Value.Num 1), none, some (Value.Num 2)],
        node := 5, text := [')'] }, table) := rfl
  have b6 : scan exprTables 5 table '*'
      { states := [0, 4, 8, 6, 5], symbols := [Sym.lparen, Sym.E, Sym.plus, Sym.num], values := [none, some (Value.Num 1), none, some (Value.Num 2)],
        node := 5, text := [')'] } =
      Run.ret (true,
      { states := [0, 4, 8, 11], symbols := [Sym.lparen, Sym.E, Sym.rparen], values := [none, some (Value.Num 3), none],
        node := 3, text := ['*'] }, table) := rfl
  have b7 : scan exprTables 5 table '3'
      { states := [0, 4, 8, 11], symbols := [Sym.lparen, Sym.E, Sym.rparen], values := [none, some (Value.Num 3), none],
        node := 3, text := ['*'] } =
      Run.ret (true,
      { states := [0, 2, 7], symbols := [Sym.T, Sym.times], values := [some (Value.Num 3), none],
        node := 1, text := ['3'] }, table) := rfl
  have be : scan_end exprTables 5 table
      { states := [0, 2, 7], symbols := [Sym.T, Sym.times], values := [some (Value.Num 3), none],
        node := 1, text := ['3'] } =
      Run.ret (some (Value.Num 9),
        { states := [0, 12], symbols := [Sym.S], values := [some (Value.Num 9)],
          node := 1, text := ['3'] }, table) := rfl
  have h9 : main_loop exprTables 5 ['(', '1', '+', '2', ')', '*', '3'] table (start exprTables s) =
      Run.ret (some (Value.Num 9),
        { states := [0, 12], symbols := [Sym.S], values := [some (Value.Num 9)],
          node := 1, text := ['3'] }, table) :=
    (main_loop_cons exprTables 5 _ _ table table _ _ b1).trans
      ((main_loop_cons exprTables 5 _ _ table table _ _ b2).trans
      ((main_loop_cons exprTables 5 _ _ table table _ _ b3).trans
      ((main_loop_cons exprTables 5 _ _ table table _ _ b4).trans
      ((main_loop_cons exprTables 5 _ _ table table _ _ b5).trans
      ((main_loop_cons exprTables 5 _ _ table table _ _ b6).trans
      ((main_loop_cons exprTables 5 _ _ table table _ _ b7).trans
      (be)))))))
  have h4 : advance exprTables 4 table Sym.plus none
      { states := [0, 5], symbols := [Sym.num], values := [some (Value.Num 1)],
        node := 2, text := ['+'] } =
      Run.ret (true,
        { states := [0, 1, 6], symbols := [Sym.E, Sym.plus],
          values := [some (Value.Num 1), none], node := 2, text := ['+'] }, table) := rfl
  ⟨main_loop_mono exprTables 5 fuel _ table _ _ h7,
    main_loop_mono exprTables 5 fuel _ table _ _ h9,
    ⟨_, _, rfl, _, _, rfl, _, _, rfl, rfl, rfl⟩,
    rfl,
    advance_mono exprTables 4 fuel table _ _ _ _ h4⟩

/-- C8: `start()` yields the same engine state from every state `s`: the state
stack holds only `state0`, the symbol and value stacks are empty, the node is
`node0` and the text buffer is empty. Hence `start()` is idempotent, and the
outcome of `start()` followed by the feed/finish sequence of `main` over any
input and context does not depend on `s`. -/
theorem start_resets [DecidableEq Node] (T : Tables Node State Symbol Rule Val Ctx)
    (s s1 : Calculator Node State Symbol Val) :
    start T s =
      { states := [T.state0], symbols := [], values := [], node := T.node0, text := [] } ∧
    start T s = start T s1 ∧
    start T (start T s) = start T s ∧
    ∀ (fuel : Nat) (input : List Char) (table : Ctx),
      main_run T fuel input table s = main_run T fuel input table s1 :=
  ⟨rfl, rfl, rfl, fun _ _ _ => rfl⟩

/-- C9: when the skip rule does not apply (the node is not `node0`, or `c` is not
white space), the node has no transition for `c` and no accepting symbol, `scan`
returns `false` in its first pass and the node, the text buffer, the three
stacks and the context are as before. The tables are arbitrary, so neither
`node_scan` nor `advance` took part in the result. -/
theorem scan_lexical_error [DecidableEq Node] (T : Tables Node State Symbol Rule Val Ctx)
    (fuel : Nat) (table : Ctx) (c : Char) (s : Calculator Node State Symbol Val)
    (hskip : s.node ≠ T.node0 ∨ isspace c = false)
    (hnext : T.node_next s.node c = none) (hacc : T.node_accept s.node = none) :
    scan T (fuel + 1) table c s = Run.ret (false, s, table) := by
  unfold scan
  have hc : ¬ (s.node = T.node0 ∧ isspace c = true) := by
    rintro ⟨h1, h2⟩
    rcases hskip with h | h
    · exact h h1
    · rw [h2] at h; exact absurd h (by decide)
  rw [if_neg hc]
  simp only [hnext, hacc]

/-- Witness of C9: the character `?` at the initial node of the expression tables. -/
theorem scan_lexical_error_witness :
    (((start exprTables engine0).node ≠ exprTables.node0 ∨ isspace '?' = false) ∧
      exprTables.node_next (start exprTables engine0).node '?' = none ∧
      exprTables.node_accept (start exprTables engine0).node = none) ∧
    scan exprTables (0 + 1) table0 '?' (start exprTables engine0) =
      Run.ret (false, start exprTables engine0, table0) :=
  ⟨⟨Or.inr (by decide), by decide, rfl⟩,
    scan_lexical_error exprTables 0 table0 '?' (start exprTables engine0)
      (Or.inr (by decide)) (by decide) rfl⟩

/-- C10: `advance` returns `false`, leaving stacks `s1` and context `table1`,
exactly if zero or more passes of its loop, each a reduction that does not
accept, lead from the entry state to `s1` and `table1`, where the top state
offers neither a shift nor a reduce entry for `sym`. In particular, when the top
state on entry offers neither, `advance` returns `false` in its first pass with
stacks and context unchanged, whatever the actions of the tables are. -/
theorem advance_fails_iff (T : Tables Node State Symbol Rule Val Ctx) (table : Ctx)
    (sym : Symbol) (val : Option Val) (s s1 : Calculator Node State Symbol Val) (table1 : Ctx) :
    ((∃ fuel, advance T fuel table sym val s = Run.ret (false, s1, table1)) ↔
      ∃ k, Reductions T sym val k s table s1 table1 ∧
        ∃ top, s1.states.getLast? = some top ∧
          T.find_shift top sym = none ∧ T.find_reduce top sym = none) ∧
    (∀ k, Reductions T sym val k s table s1 table1 →
      (∃ top, s1.states.getLast? = some top ∧
          T.find_shift top sym = none ∧ T.find_reduce top sym = none) →
      ∀ fuel, k < fuel → advance T fuel table sym val s = Run.ret (false, s1, table1)) ∧
    ((∃ top, s.states.getLast? = some top ∧
          T.find_shift top sym = none ∧ T.find_reduce top sym = none) →
      ∀ fuel, advance T (fuel + 1) table sym val s = Run.ret (false, s, table)) := by
  have key : ∀ (sk : Calculator Node State Symbol Val) (tk : Ctx),
      advance_body T tk sym val sk = Run.ret (some false, s1, table1) ↔
        (sk = s1 ∧ tk = table1) ∧ ∃ top, s1.states.getLast? = some top ∧
          T.find_shift top sym = none ∧ T.find_reduce top sym = none := by
    intro sk tk
    rw [advance_body_eq_ret]
    constructor
    · rintro ⟨top, htop, h⟩
      rcases h with ⟨next, -, h⟩ | ⟨h1, h2, h⟩ | ⟨-, rule, accept, result, t2, base, -, -, -, -, h⟩
      · simp at h
      · injection h with _ h
        injection h with h3 h4
        subst h3 h4
        exact ⟨⟨rfl, rfl⟩, top, htop, h1, h2⟩
      · injection h with h _
        cases accept <;> simp at h
    · rintro ⟨⟨rfl, rfl⟩, top, htop, h1, h2⟩
      exact ⟨top, htop, Or.inr (Or.inl ⟨h1, h2, rfl⟩)⟩
  have down : ∀ k, Reductions T sym val k s table s1 table1 →
      (∃ top, s1.states.getLast? = some top ∧
          T.find_shift top sym = none ∧ T.find_reduce top sym = none) →
      ∀ fuel, k < fuel → advance T fuel table sym val s = Run.ret (false, s1, table1) := by
    intro k hk hneither fuel hlt
    rw [advance_eq_ret_iff]
    exact ⟨k, hlt, s1, table1, hk, (key s1 table1).mpr ⟨⟨rfl, rfl⟩, hneither⟩⟩
  refine ⟨⟨?_, ?_⟩, down, ?_⟩
  · rintro ⟨fuel, h⟩
    rw [advance_eq_ret_iff] at h
    obtain ⟨k, -, sk, tk, hk, hlast⟩ := h
    obtain ⟨⟨rfl, rfl⟩, hneither⟩ := (key sk tk).mp hlast
    exact ⟨k, hk, hneither⟩
  · rintro ⟨k, hk, hneither⟩
    exact ⟨k + 1, down k hk hneither (k + 1) (Nat.lt_succ_self k)⟩
  · intro hneither fuel
    rw [advance_eq_ret_iff]
    refine ⟨0, Nat.succ_pos _, s, table, ⟨rfl, rfl⟩, ?_⟩
    rw [advance_body_eq_ret]
    obtain ⟨top, htop, h1, h2⟩ := hneither
    exact ⟨top, htop, Or.inr (Or.inl ⟨h1, h2, rfl⟩)⟩

/-- Witness of C10: on the expression tables a `)` after the number `1` makes
three reductions (`F -> num`, `T -> F`, `E -> T`) and then meets state 1, which
has neither a shift nor a reduce entry for `)`; `advance` returns `false`. -/
theorem advance_fails_iff_witness :
    Reductions exprTables Sym.rparen none 3
      { states := [0, 5], symbols := [Sym.num], values := [some (Value.Num 1)],
        node := 5, text := [')'] } table0
      { states := [0, 1], symbols := [Sym.E], values := [some (Value.Num 1)],
        node := 5, text := [')'] } table0 ∧
    (∃ top, [0, 1].getLast? = some top ∧
      exprTables.find_shift top Sym.rparen = none ∧
      exprTables.find_reduce top Sym.rparen = none) ∧
    advance exprTables 4 table0 Sym.rparen none
      { states := [0, 5], symbols := [Sym.num], values := [some (Value.Num 1)],
        node := 5, text := [')'] } =
      Run.ret (false,
        { states := [0, 1], symbols := [Sym.E], values := [some (Value.Num 1)],
          node := 5, text := [')'] }, table0) :=
  have hred : Reductions exprTables Sym.rparen none 3
      { states := [0, 5], symbols := [Sym.num], values := [some (Value.Num 1)],
        node := 5, text := [')'] } table0
      { states := [0, 1], symbols := [Sym.E], values := [some (Value.Num 1)],
        node := 5, text := [')'] } table0 :=
    ⟨_, _, rfl, _, _, rfl, _, _, rfl, rfl, rfl⟩
  ⟨hred, ⟨1, rfl, rfl, rfl⟩,
    (advance_fails_iff exprTables table0 Sym.rparen none _ _ table0).2.1 3 hred
      ⟨1, rfl, rfl, rfl⟩ 4 (by decide)⟩

/-- C11: when the current node is not the initial node and has no accepting
symbol, `scan_end` returns the null result with the stacks, the node, the buffer
and the context as they were, for every fuel (also 0, so no pass of `advance`
ran) and for arbitrary tables (whose scan function could be `undefined`): neither
a token nor the end-marker reached the parser. -/
theorem scan_end_unterminated [DecidableEq Node] (T : Tables Node State Symbol Rule Val Ctx)
    (fuel : Nat) (table : Ctx) (s : Calculator Node State Symbol Val)
    (hnode : s.node ≠ T.node0) (hacc : T.node_accept s.node = none) :
    scan_end T fuel table s = Run.ret (none, s, table) := by
  unfold scan_end
  rw [hacc]
  simp only [hnode, ne_eq, not_false_eq_true, if_true]

/-- Witness of C11: on `hashTables` the node reached by `#` is not initial and
accepts nothing; finish fails there, and so does the run of `main` on `#`. -/
theorem scan_end_unterminated_witness :
    (hashState.node ≠ hashTables.node0 ∧ hashTables.node_accept hashState.node = none) ∧
    scan_end hashTables 0 table0 hashState = Run.ret (none, hashState, table0) ∧
    main_run hashTables 1 ['#'] table0 engine0 = Run.ret (none, hashState, table0) :=
  ⟨⟨by decide, rfl⟩,
    scan_end_unterminated hashTables 0 table0 hashState (by decide) rfl,
    by decide⟩

/-- C13: `reduce_assign(t, x, v)` returns `v` and leaves a context in which
`reduce_lookup` of `x` returns `v` (and changes nothing); it keeps the `done`
flag and every binding of a name other than `x`. The binary arithmetic actions,
`reduce_paren`, `reduce_line` and `reduce_total` return the context they were
given whenever they return. On the statement tables the run of `main` on `x=5;x`
assigns in the first statement, and the reference in the second yields 5. -/
theorem bindings_persist (t : Table) (x : List Char) (v : Int) :
    reduce_assign t (some (Value.Ident x)) (some (Value.Num v)) =
      Run.ret (some (Value.Num v), { t with vars := vars_set t.vars x v }) ∧
    reduce_lookup { t with vars := vars_set t.vars x v } (some (Value.Ident x)) =
      Run.ret (some (Value.Num v), { t with vars := vars_set t.vars x v }) ∧
    ({ t with vars := vars_set t.vars x v } : Table).done = t.done ∧
    vars_find (vars_set t.vars x v) x = some v ∧
    (∀ y, y ≠ x → vars_find (vars_set t.vars x v) y = vars_find t.vars y) ∧
    (∀ E1 E2 r, reduce_add_mul t E1 E2 = Run.ret r → r.2 = t) ∧
    (∀ E1 E2 r, reduce_sub_mul t E1 E2 = Run.ret r → r.2 = t) ∧
    (∀ E1 E2 r, reduce_mul_int t E1 E2 = Run.ret r → r.2 = t) ∧
    (∀ E1 E2 r, reduce_div_int t E1 E2 = Run.ret r → r.2 = t) ∧
    (∀ E1, reduce_paren t E1 = Run.ret (E1, t)) ∧
    (∀ E1, reduce_line t E1 = Run.ret (E1, t)) ∧
    (∀ E1, reduce_total t E1 = Run.ret (E1, t)) ∧
    (∀ (more : Nat) (e : Calculator Nat Nat SSym Value),
      main_run stmtTables (3 + more) ['x', '=', '5', ';', 'x'] table0 e =
        Run.ret (some (Value.Num 5),
          { states := [0, 8], symbols := [SSym.S], values := [some (Value.Num 5)],
            node := 2, text := ['x'] },
          { vars := [(['x'], 5)], done := false })) := by
  have hfind := vars_find_set_same t.vars x v
  have arith : ∀ (f : Int → Int → Int) (E1 E2 : Option Value) (r : Option Value × Table),
      (match E1, E2 with
        | some (Value.Num a), some (Value.Num b) =>
          (int_result (f a b)).bind fun z => Run.ret (some (Value.Num z), t)
        | _, _ => Run.undefined) = Run.ret r → r.2 = t := by
    intro f E1 E2 r h
    split at h
    · obtain ⟨z, -, h⟩ := Run.bind_eq_ret h
      injection h with h
      rw [← h]
    · simp at h
  refine ⟨rfl, ?_, rfl, hfind, fun y hy => vars_find_set_other t.vars x y v hy,
    fun E1 E2 r h => arith (fun a b => a + b) E1 E2 r h,
    fun E1 E2 r h => arith (fun a b => a - b) E1 E2 r h,
    fun E1 E2 r h => arith (fun a b => a * b) E1 E2 r h, ?_,
    fun _ => rfl, fun _ => rfl, fun _ => rfl, ?_⟩
  · simp only [reduce_lookup, vars_index, hfind]
  · intro E1 E2 r h
    unfold reduce_div_int at h
    split at h
    · split at h
      · simp at h
      · obtain ⟨z, -, h⟩ := Run.bind_eq_ret h
        injection h with h
        rw [← h]
    · simp at h
  · intro more e
    have h : main_loop stmtTables 3 ['x', '=', '5', ';', 'x'] table0
        (start stmtTables stmtEngine0) =
        Run.ret (some (Value.Num 5),
          { states := [0, 8], symbols := [SSym.S], values := [some (Value.Num 5)],
            node := 2, text := ['x'] },
          { vars := [(['x'], 5)], done := false }) := by decide
    exact main_loop_mono stmtTables 3 more _ table0 _ _ h

/-- C14, evaluated at the failing input: on the text `2147483648` (ten decimal
digits, one more than `INT_MAX`) `scan_num` does not return: `std::stoi` throws
`std::out_of_range`. The exception leaves `scan` when the next character ends the
number, and leaves `scan_end` and the run of `main` when the input ends with it.
In general `scan_num` returns on a non-empty text of decimal digits exactly when
its decimal value is at most `INT_MAX`. -/
theorem scan_num_raises_out_of_range :
    scan_num table0 ['2', '1', '4', '7', '4', '8', '3', '6', '4', '8'] = Run.raise ∧
    scan exprTables 5 table0 '+'
      { states := [0], symbols := [], values := [], node := 1,
        text := ['2', '1', '4', '7', '4', '8', '3', '6', '4', '8'] } = Run.raise ∧
    scan_end exprTables 5 table0
      { states := [0], symbols := [], values := [], node := 1,
        text := ['2', '1', '4', '7', '4', '8', '3', '6', '4', '8'] } = Run.raise ∧
    main_run exprTables 5 ['2', '1', '4', '7', '4', '8', '3', '6', '4', '8'] table0 engine0 =
      Run.raise ∧
    main_run exprTables 5 ['2', '1', '4', '7', '4', '8', '3', '6', '4', '7'] table0 engine0 =
      Run.ret (some (Value.Num 2147483647),
        { states := [0, 12], symbols := [Sym.S], values := [some (Value.Num 2147483647)],
          node := 1, text := ['2', '1', '4', '7', '4', '8', '3', '6', '4', '7'] }, table0) ∧
    (∀ (table : Table) (text : List Char), text ≠ [] → (∀ c ∈ text, c.isDigit = true) →
      scan_num table text =
        if text.foldl (fun a d => 10 * a + ((d.toNat - 48 : Nat) : Int)) 0 ≤ INT_MAX then
          Run.ret (some (Value.Num
            (text.foldl (fun a d => 10 * a + ((d.toNat - 48 : Nat) : Int)) 0)), table)
        else Run.raise) := by
  refine ⟨by decide, by decide, by decide, by decide, by decide, ?_⟩
  intro table text hne hd
  unfold scan_num
  rw [stoi_digits text hne hd]
  split <;> rfl

/-- C15, as stated, fails on `loopTables`, whose initial node accepts `plus` on
the empty text and has no transition for `?`: every `advance` call returns (it
shifts `plus` in its first pass), but `scan` keeps finalising the empty token and
never returns: with any fuel the loop is still running when the fuel is spent. -/
theorem scan_never_returns :
    loopTables.node_accept loopTables.node0 = some Sym.plus ∧
    isspace '?' = false ∧
    loopTables.node_next loopTables.node0 '?' = none ∧
    (∀ (fuel : Nat) (t : Table) (val : Option Value) (s : Calculator Nat Nat Sym Value)
        (top : Nat), s.states.getLast? = some top →
      advance loopTables (fuel + 1) t Sym.plus val s =
        Run.ret (true, push top Sym.plus val s, t)) ∧
    (∀ fuel, scan loopTables fuel table0 '?' (start loopTables engine0) = Run.timeout) := by
  have hadv : ∀ (fuel : Nat) (t : Table) (val : Option Value)
      (s : Calculator Nat Nat Sym Value) (top : Nat), s.states.getLast? = some top →
      advance loopTables (fuel + 1) t Sym.plus val s =
        Run.ret (true, push top Sym.plus val s, t) := by
    intro fuel t val s top htop
    rw [advance_succ]
    simp [advance_body, htop, loopTables]
  have key : ∀ (fuel : Nat) (t : Table) (states : List Nat) (symbols : List Sym)
      (values : List (Option Value)), states ≠ [] →
      scan loopTables fuel t '?'
        { states := states, symbols := symbols, values := values, node := 0, text := [] } =
        Run.timeout := by
    intro fuel
    induction fuel with
    | zero => intros; rfl
    | succ fuel ih =>
      intro t states symbols values hne
      have h1 : scan loopTables (fuel + 1) t '?'
          { states := states, symbols := symbols, values := values, node := 0, text := [] } =
          (advance loopTables fuel t Sym.plus none
            { states := states, symbols := symbols, values := values, node := 0,
              text := [] }).bind fun r =>
            if r.1 = true then
              scan loopTables fuel r.2.2 '?' { r.2.1 with node := 0, text := [] }
            else Run.ret (false, r.2.1, r.2.2) := rfl
      rw [h1]
      cases fuel with
      | zero => rfl
      | succ fuel =>
        rw [hadv fuel t none _ (states.getLast hne) (List.getLast?_eq_getLast _ hne)]
        simp only [Run.bind_ret, if_true]
        exact ih t _ _ _ (by simp [push])
  exact ⟨rfl, by decide, by decide, hadv, fun fuel => key fuel table0 [0] [] [] (by simp)⟩

/-- C15, amended: if the initial node has no accepting symbol, or `c` is white
space, or the initial node has a transition on `c`, and the scan function and
the one `advance` call return whenever `scan` makes them (the skip rule does not
apply, the node has no transition for `c` and accepts), then `scan` returns within
two passes of its loop, and its result is one of (`ScanOutcome`): `c` skipped,
`c` appended, a lexical error (in these no token was sent), or the result of
exactly one advance of the token `(A, v)`: failure if that advance failed, else
`c` skipped at the initial node, `c` appended after the reset, or failure at the
initial node. So `scan` ends having consumed `c` or with `false`, after at most
one token. -/
theorem scan_returns_one_token [DecidableEq Node] (T : Tables Node State Symbol Rule Val Ctx)
    (fuel : Nat) (table : Ctx) (c : Char) (s : Calculator Node State Symbol Val)
    (hok : T.node_accept T.node0 = none ∨ isspace c = true ∨
      ∃ next, T.node_next T.node0 c = some next)
    (hcalls : ∀ A, ¬ (s.node = T.node0 ∧ isspace c = true) →
      T.node_next s.node c = none → T.node_accept s.node = some A →
      ∃ w p, T.node_scan s.node table s.text = Run.ret w ∧
        advance T fuel w.2 A w.1 s = Run.ret p) :
    ∃ r, scan T (fuel + 2) table c s = Run.ret r ∧ ScanOutcome T fuel table c s r := by
  unfold ScanOutcome
  by_cases hskip : s.node = T.node0 ∧ isspace c = true
  · exact ⟨_, by rw [scan, if_pos hskip], Or.inl ⟨rfl, hskip.1, hskip.2⟩⟩
  cases hn : T.node_next s.node c with
  | some next =>
    refine ⟨_, ?_, Or.inr (Or.inl ⟨next, rfl, rfl⟩)⟩
    rw [scan, if_neg hskip]
    simp only [hn]
  | none =>
    cases ha : T.node_accept s.node with
    | none =>
      refine ⟨_, ?_, Or.inr (Or.inr (Or.inl ⟨rfl, rfl⟩))⟩
      rw [scan, if_neg hskip]
      simp only [hn, ha]
    | some A =>
      obtain ⟨w, p, hw, hp⟩ := hcalls A hskip hn ha
      have first : scan T (fuel + 2) table c s =
          if p.1 = true then scan T (fuel + 1) p.2.2 c { p.2.1 with node := T.node0, text := [] }
          else Run.ret (false, p.2.1, p.2.2) := by
        rw [scan, if_neg hskip]
        simp only [hn, ha, hw, Run.bind_ret]
        rw [advance_mono T fuel 1 w.2 A w.1 s p hp]
        rfl
      rw [first]
      cases hb : p.1 with
      | false =>
        exact ⟨_, by simp, Or.inr (Or.inr (Or.inr ⟨A, w, p, rfl, hw, hp, Or.inl ⟨hb, rfl⟩⟩))⟩
      | true =>
        simp only [if_true]
        by_cases hsp : isspace c = true
        · refine ⟨_, ?_, Or.inr (Or.inr (Or.inr ⟨A, w, p, rfl, hw, hp,
            Or.inr (Or.inl ⟨hb, hsp, rfl⟩)⟩))⟩
          rw [scan]
          simp [hsp]
        · cases hn0 : T.node_next T.node0 c with
          | some next =>
            refine ⟨_, ?_, Or.inr (Or.inr (Or.inr ⟨A, w, p, rfl, hw, hp,
              Or.inr (Or.inr (Or.inl ⟨hb, next, rfl, rfl⟩))⟩))⟩
            rw [scan]
            simp [hsp, hn0]
          | none =>
            have h0 : T.node_accept T.node0 = none := by
              rcases hok with h | h | ⟨next, h⟩
              · exact h
              · exact absurd h hsp
              · rw [hn0] at h; simp at h
            refine ⟨_, ?_, Or.inr (Or.inr (Or.inr ⟨A, w, p, rfl, hw, hp,
              Or.inr (Or.inr (Or.inr ⟨hb, h0, rfl⟩))⟩))⟩
            rw [scan]
            simp [hsp, hn0, h0]

/-- Witness of C15: on the expression tables `+` after the number `1` sends the
one token `(num, 1)` and then starts the token `+` from the initial node. -/
theorem scan_returns_one_token_witness :
    (exprTables.node_accept exprTables.node0 = none ∧
      exprTables.node_accept oneState.node = some Sym.num ∧
      exprTables.node_scan oneState.node table0 oneState.text =
        Run.ret (some (Value.Num 1), table0) ∧
      advance exprTables 1 table0 Sym.num (some (Value.Num 1)) oneState =
        Run.ret (true,
          { states := [0, 5], symbols := [Sym.num], values := [some (Value.Num 1)],
            node := 1, text := ['1'] }, table0)) ∧
    scan exprTables (1 + 2) table0 '+' oneState =
      Run.ret (true,
        { states := [0, 5], symbols := [Sym.num], values := [some (Value.Num 1)],
          node := 2, text := ['+'] }, table0) ∧
    ∃ r, scan exprTables (1 + 2) table0 '+' oneState = Run.ret r ∧
      ScanOutcome exprTables 1 table0 '+' oneState r :=
  ⟨⟨rfl, rfl, rfl, rfl⟩, by decide,
    scan_returns_one_token exprTables 1 table0 '+' oneState (Or.inl rfl)
      (fun A _ _ hA => by
        cases hA
        exact ⟨(some (Value.Num 1), table0),
          (true, { states := [0, 5], symbols := [Sym.num], values := [some (Value.Num 1)],
                   node := 1, text := ['1'] }, table0), rfl, rfl⟩)⟩

/-- C16: when, after `k` non-accepting reductions for `sym` (end-marker or not),
the reduce entry that applies carries the accept flag, `advance` returns `true`
right after that one reduction: with any fuel above `k` its result is the stacks
with the rule's frames removed and the one frame `(find_goto base lhs, lhs,
result)` pushed on top. The pass gives the same stacks whatever value came with
`sym`: no frame for `(sym, val)` is pushed. -/
theorem advance_accept_ends (T : Tables Node State Symbol Rule Val Ctx) (table : Ctx)
    (sym : Symbol) (val : Option Val) (s : Calculator Node State Symbol Val) (k : Nat)
    (sk : Calculator Node State Symbol Val) (tk : Ctx) (top : State) (rule : Rule)
    (result : Option Val) (table1 : Ctx)
    (hl : Lockstep s) (hred : Reductions T sym val k s table sk tk)
    (htop : sk.states.getLast? = some top) (hshift : T.find_shift top sym = none)
    (hrule : T.find_reduce top sym = some (rule, true))
    (hn : (T.rule_nonterm rule).2 ≤ sk.values.length)
    (hact : T.action rule tk (sk.values.drop (sk.values.length - (T.rule_nonterm rule).2)) =
      Run.ret (result, table1)) :
    ∃ base, (sk.states.take (sk.states.length - (T.rule_nonterm rule).2)).getLast? =
        some base ∧
      (∀ fuel, k < fuel →
        advance T fuel table sym val s =
          Run.ret (true,
            { states := sk.states.take (sk.states.length - (T.rule_nonterm rule).2) ++
                [T.find_goto base (T.rule_nonterm rule).1]
              symbols := sk.symbols.take (sk.symbols.length - (T.rule_nonterm rule).2) ++
                [(T.rule_nonterm rule).1]
              values := sk.values.take (sk.values.length - (T.rule_nonterm rule).2) ++ [result]
              node := sk.node
              text := sk.text },
            table1)) ∧
      (∀ other, advance_body T tk sym other sk =
          Run.ret (some true,
            { states := sk.states.take (sk.states.length - (T.rule_nonterm rule).2) ++
                [T.find_goto base (T.rule_nonterm rule).1]
              symbols := sk.symbols.take (sk.symbols.length - (T.rule_nonterm rule).2) ++
                [(T.rule_nonterm rule).1]
              values := sk.values.take (sk.values.length - (T.rule_nonterm rule).2) ++ [result]
              node := sk.node
              text := sk.text },
            table1)) := by
  have hlk := lockstep_reductions T sym val k s table sk tk hred hl
  obtain ⟨base, hbase, hpass⟩ :=
    reduce_pass T tk sym sk top rule true result table1 hlk htop hshift hrule hn hact
  refine ⟨base, hbase, ?_, fun other => hpass other⟩
  intro fuel hlt
  rw [advance_eq_ret_iff]
  exact ⟨k, hlt, sk, tk, hred, hpass val⟩

/-- Witness of C16: on the expression tables the end-marker after the number `5`
makes three reductions and then the accepting reduction of `S -> E`; `advance`
returns `true` with the single frame `(12, S, 5)` above the sentinel. -/
theorem advance_accept_ends_witness :
    (Lockstep shiftedFive ∧
      Reductions exprTables Sym.endmark none 3 shiftedFive table0
        { states := [0, 1], symbols := [Sym.E], values := [some (Value.Num 5)],
          node := 1, text := ['5'] } table0 ∧
      exprTables.find_shift 1 Sym.endmark = none ∧
      exprTables.find_reduce 1 Sym.endmark = some (ERule.total, true) ∧
      exprTables.action ERule.total table0 [some (Value.Num 5)] =
        Run.ret (some (Value.Num 5), table0)) ∧
    advance exprTables 4 table0 Sym.endmark none shiftedFive =
      Run.ret (true,
        { states := [0, 12], symbols := [Sym.S], values := [some (Value.Num 5)],
          node := 1, text := ['5'] }, table0) ∧
    ∃ base, [0].getLast? = some base ∧
      (∀ fuel, 3 < fuel →
        advance exprTables fuel table0 Sym.endmark none shiftedFive =
          Run.ret (true,
            { states := [0] ++ [exprTables.find_goto base Sym.S]
              symbols := [] ++ [Sym.S]
              values := [] ++ [some (Value.Num 5)]
              node := 1
              text := ['5'] },
            table0)) ∧
      (∀ other, advance_body exprTables table0 Sym.endmark other
          { states := [0, 1], symbols := [Sym.E], values := [some (Value.Num 5)],
            node := 1, text := ['5'] } =
          Run.ret (some true,
            { states := [0] ++ [exprTables.find_goto base Sym.S]
              symbols := [] ++ [Sym.S]
              values := [] ++ [some (Value.Num 5)]
              node := 1
              text := ['5'] },
            table0)) :=
  have hred : Reductions exprTables Sym.endmark none 3 shiftedFive table0
      { states := [0, 1], symbols := [Sym.E], values := [some (Value.Num 5)],
        node := 1, text := ['5'] } table0 :=
    ⟨_, _, rfl, _, _, rfl, _, _, rfl, rfl, rfl⟩
  ⟨⟨⟨rfl, rfl⟩, hred, rfl, rfl, rfl⟩, by decide,
    advance_accept_ends exprTables table0 Sym.endmark none shiftedFive 3
      { states := [0, 1], symbols := [Sym.E], values := [some (Value.Num 5)],
        node := 1, text := ['5'] } table0 1 ERule.total (some (Value.Num 5)) table0
      ⟨rfl, rfl⟩ hred rfl rfl rfl (by decide) rfl⟩

/-- C17, as stated, fails: on the expression tables the node after `5` accepts
`num` and finish succeeds, but afterwards the node is still the number node and
the buffer still holds `5`; they are not the initial node and the empty buffer
that `scan` leaves when a space closes the same token. On `cycleTables`, where a
second finish succeeds as well, it sends `(num, 5)` to the parser a second time. -/
theorem scan_end_keeps_pending_token :
    exprTables.node_accept fiveState.node = some Sym.num ∧
    scan_end exprTables 5 table0 fiveState =
      Run.ret (some (Value.Num 5),
        { states := [0, 12], symbols := [Sym.S], values := [some (Value.Num 5)],
          node := 1, text := ['5'] }, table0) ∧
    ¬ ((1 : Nat) = exprTables.node0 ∧ ['5'] = ([] : List Char)) ∧
    scan exprTables 5 table0 ' ' fiveState =
      Run.ret (true,
        { states := [0, 5], symbols := [Sym.num], values := [some (Value.Num 5)],
          node := 0, text := [] }, table0) ∧
    scan_end cycleTables 1 table0 fiveState =
      Run.ret (some (Value.Num 5),
        { states := [0, 1, 0], symbols := [Sym.num, Sym.endmark],
          values := [some (Value.Num 5), none], node := 1, text := ['5'] }, table0) ∧
    scan_end cycleTables 1 table0
        { states := [0, 1, 0], symbols := [Sym.num, Sym.endmark],
          values := [some (Value.Num 5), none], node := 1, text := ['5'] } =
      Run.ret (some (Value.Num 5),
        { states := [0, 1, 0, 1, 0],
          symbols := [Sym.num, Sym.endmark, Sym.num, Sym.endmark],
          values := [some (Value.Num 5), none, some (Value.Num 5), none],
          node := 1, text := ['5'] }, table0) :=
  ⟨rfl, by decide, by decide, by decide, by decide, by decide⟩

/-- C17, amended: when the current node accepts `A` and `scan_end` succeeds, the
pending token was sent once: the scan function returned `w` on the buffer, one
advance of `(A, w)` returned `true`, and the advance of the end-marker from
there returned `true` with the final stacks. The scanner is not reset: node and
buffer are as before the call, so the node still accepts `A` and a further
`scan_end` would start with the same token. The reset to the initial node and
the empty buffer is made by `start()`. -/
theorem scan_end_leaves_scanner [DecidableEq Node] (T : Tables Node State Symbol Rule Val Ctx)
    (fuel : Nat) (table : Ctx) (s : Calculator Node State Symbol Val) (A : Symbol) (v : Val)
    (s1 : Calculator Node State Symbol Val) (table1 : Ctx)
    (hacc : T.node_accept s.node = some A)
    (h : scan_end T fuel table s = Run.ret (some v, s1, table1)) :
    (∃ w table2 s0 table3,
      T.node_scan s.node table s.text = Run.ret (w, table2) ∧
      advance T fuel table2 A w s = Run.ret (true, s0, table3) ∧
      advance T fuel table3 T.endmark none s0 = Run.ret (true, s1, table1)) ∧
    s1.node = s.node ∧ s1.text = s.text ∧
    T.node_accept s1.node = some A ∧
    (∀ again, scan_end T again table1 s1 =
      (T.node_scan s.node table1 s.text).bind fun x =>
        (advance T again x.2 A x.1 s1).bind fun r =>
          if r.1 = true then scan_end_mark T again r.2.2 r.2.1
          else Run.ret (none, r.2.1, r.2.2)) ∧
    (start T s1).node = T.node0 ∧ (start T s1).text = [] := by
  obtain ⟨hnode, htext⟩ := scan_end_node_text T fuel table s _ h
  have hnode1 : s1.node = s.node := hnode
  have htext1 : s1.text = s.text := htext
  obtain ⟨s0, t0, hentry, hmark, -⟩ := scan_end_some T fuel table s v s1 table1 h
  refine ⟨?_, hnode1, htext1, by rw [hnode1]; exact hacc, ?_, rfl, rfl⟩
  · rcases hentry with ⟨hnone, -, -, -⟩ | ⟨acc, w, t2, ha, hw, hadv⟩
    · rw [hacc] at hnone; simp at hnone
    · rw [hacc] at ha
      injection ha with ha
      subst ha
      exact ⟨w, t2, s0, t0, hw, hadv, hmark⟩
  · intro again
    unfold scan_end
    rw [hnode1, htext1]
    simp only [hacc]

/-- Witness of C17: finish on the expression tables with `5` pending. -/
theorem scan_end_leaves_scanner_witness :
    (exprTables.node_accept fiveState.node = some Sym.num ∧
      scan_end exprTables 5 table0 fiveState =
        Run.ret (some (Value.Num 5),
          { states := [0, 12], symbols := [Sym.S], values := [some (Value.Num 5)],
            node := 1, text := ['5'] }, table0)) ∧
    ((∃ w table2 s0 table3,
        exprTables.node_scan fiveState.node table0 fiveState.text = Run.ret (w, table2) ∧
        advance exprTables 5 table2 Sym.num w fiveState = Run.ret (true, s0, table3) ∧
        advance exprTables 5 table3 exprTables.endmark none s0 =
          Run.ret (true,
            { states := [0, 12], symbols := [Sym.S], values := [some (Value.Num 5)],
              node := 1, text := ['5'] }, table0)) ∧
      (1 : Nat) = fiveState.node ∧ ['5'] = fiveState.text ∧
      exprTables.node_accept 1 = some Sym.num) :=
  ⟨⟨rfl, by decide⟩,
    ⟨(scan_end_leaves_scanner exprTables 5 table0 fiveState Sym.num (Value.Num 5)
        { states := [0, 12], symbols := [Sym.S], values := [some (Value.Num 5)],
          node := 1, text := ['5'] } table0 rfl (by decide)).1,
      rfl, rfl, rfl⟩⟩

/-- C18: in every engine state reached from `start()` by calls of `scan`,
`advance` and `scan_end` that return (a reduction whose rule is longer than the
symbol stack does not return: `pop` is undefined there), the state stack is one
longer than the symbol stack and the value stack is as long as the symbol stack,
the bottom of the state stack is the sentinel `state0`, and `states.back()` is
defined. For a rule of length at most the symbol-stack length `pop` returns and
exposes a state. Whenever `advance` returns `true`, `values.front()` is defined. -/
theorem reachable_sentinel_lockstep [DecidableEq Node]
    (T : Tables Node State Symbol Rule Val Ctx) (s : Calculator Node State Symbol Val)
    (h : Reachable T s) :
    s.states.length = s.symbols.length + 1 ∧
    s.states.length = s.values.length + 1 ∧
    s.states.head? = some T.state0 ∧
    (∃ top, s.states.getLast? = some top) ∧
    (∀ n, n ≤ s.symbols.length →
      pop n s = Run.ret (popped n s) ∧ ∃ base, (popped n s).states.getLast? = some base) ∧
    (∀ fuel table sym val s1 table1,
      advance T fuel table sym val s = Run.ret (true, s1, table1) →
      ∃ front, s1.values.head? = some front) := by
  have hinv : Lockstep s ∧ Anchored T s := by
    induction h with
    | start s0 => exact ⟨lockstep_start T s0, rfl⟩
    | scan fuel table c s1 r _ hr ih =>
      exact scan_preserves T (fun e => Lockstep e ∧ Anchored T e)
        (fun fuel1 table1 sym val e p he hp => anchored_advance T fuel1 table1 sym val e p he hp)
        (fun _ _ _ he => he) fuel table c s1 r ih hr
    | advance fuel table sym val s1 r _ hr ih =>
      exact anchored_advance T fuel table sym val s1 r ih hr
    | scan_end fuel table s1 r _ hr ih =>
      exact scan_end_preserves T (fun e => Lockstep e ∧ Anchored T e)
        (fun fuel1 table1 sym val e p he hp => anchored_advance T fuel1 table1 sym val e p he hp)
        fuel table s1 r ih hr
  obtain ⟨⟨h1, h2⟩, ha⟩ := hinv
  have hne : s.states ≠ [] := by
    intro h0
    rw [h0] at h1
    simp at h1
  refine ⟨h1, by omega, ha, ⟨_, List.getLast?_eq_getLast _ hne⟩, ?_, ?_⟩
  · intro n hn
    refine ⟨(pop_eq_ret n s _).mpr ⟨⟨by omega, hn, by omega⟩, rfl⟩, ?_⟩
    have hne1 : (popped n s).states ≠ [] := by
      intro h0
      have := congrArg List.length h0
      simp only [popped, List.length_take, List.length_nil] at this
      omega
    exact ⟨_, List.getLast?_eq_getLast _ hne1⟩
  · intro fuel table sym val s1 table1 hadv
    exact advance_true_values T fuel table sym val s s1 table1 hadv

/-- Witness of C18: the state after `start()` and the characters `1`, `+`, `2`,
`*`, `3` on the expression tables. -/
theorem reachable_sentinel_lockstep_witness :
    Reachable exprTables
      ({ states := [0, 1, 6, 9, 7], symbols := [Sym.E, Sym.plus, Sym.T, Sym.times],
         values := [some (Value.Num 1), none, some (Value.Num 2), none],
         node := 1, text := ['3'] } : Calculator Nat Nat Sym Value) ∧
    [0, 1, 6, 9, 7].length = [Sym.E, Sym.plus, Sym.T, Sym.times].length + 1 ∧
    [0, 1, 6, 9, 7].head? = some exprTables.state0 ∧
    [0, 1, 6, 9, 7].getLast? = some 7 :=
  have hr : Reachable exprTables
      ({ states := [0, 1, 6, 9, 7], symbols := [Sym.E, Sym.plus, Sym.T, Sym.times],
         values := [some (Value.Num 1), none, some (Value.Num 2), none],
         node := 1, text := ['3'] } : Calculator Nat Nat Sym Value) :=
    Reachable.scan 5 table0 '3' _ (true, _, table0)
      (Reachable.scan 5 table0 '*' _
        (true, { states := [0, 1, 6, 5], symbols := [Sym.E, Sym.plus, Sym.num],
                 values := [some (Value.Num 1), none, some (Value.Num 2)],
                 node := 3, text := ['*'] }, table0)
        (Reachable.scan 5 table0 '2' _
          (true, { states := [0, 1, 6], symbols := [Sym.E, Sym.plus],
                   values := [some (Value.Num 1), none], node := 1, text := ['2'] }, table0)
          (Reachable.scan 5 table0 '+' _
            (true, { states := [0, 5], symbols := [Sym.num], values := [some (Value.Num 1)],
                     node := 2, text := ['+'] }, table0)
            (Reachable.scan 5 table0 '1' (start exprTables engine0)
              (true, { states := [0], symbols := [], values := [], node := 1, text := ['1'] },
                table0)
              (Reachable.start engine0) (by decide))
            (by decide))
          (by decide))
        (by decide))
      (by decide)
  ⟨hr, (reachable_sentinel_lockstep exprTables _ hr).1,
    (reachable_sentinel_lockstep exprTables _ hr).2.2.1, rfl⟩

/-- C19: in every engine state reached from `start()` by calls of `scan` (and of
`advance` and `scan_end`) that return, the text buffer drives the token automaton
from the initial node to the current node; with an empty buffer the node is the
initial node. A white-space character at the initial node is consumed without
entering the buffer; a transition appends exactly its character, and the longer
buffer drives the automaton to the new node. When `scan` or `scan_end` closes a
token, the token handed
to `advance` is `(A, node_scan(node, text))` with `A` accepted at the current
node, hence built from a word that drives the automaton to that node. -/
theorem reachable_text_follows [DecidableEq Node]
    (T : Tables Node State Symbol Rule Val Ctx) (s : Calculator Node State Symbol Val)
    (h : Reachable T s) :
    follow T T.node0 s.text = some s.node ∧
    (s.text = [] → s.node = T.node0) ∧
    (∀ fuel table c, s.node = T.node0 → isspace c = true →
      scan T (fuel + 1) table c s = Run.ret (true, s, table)) ∧
    (∀ fuel table c next, ¬ (s.node = T.node0 ∧ isspace c = true) →
      T.node_next s.node c = some next →
      scan T (fuel + 1) table c s =
        Run.ret (true, { s with text := s.text ++ [c], node := next }, table) ∧
      follow T T.node0 (s.text ++ [c]) = some next) ∧
    (∀ fuel table c A, ¬ (s.node = T.node0 ∧ isspace c = true) →
      T.node_next s.node c = none → T.node_accept s.node = some A →
      follow T T.node0 s.text = some s.node ∧
      scan T (fuel + 1) table c s =
        (T.node_scan s.node table s.text).bind fun v =>
          (advance T fuel v.2 A v.1 s).bind fun r =>
            if r.1 = true then
              scan T fuel r.2.2 c { r.2.1 with node := T.node0, text := [] }
            else Run.ret (false, r.2.1, r.2.2)) ∧
    (∀ fuel table A, T.node_accept s.node = some A →
      follow T T.node0 s.text = some s.node ∧
      scan_end T fuel table s =
        (T.node_scan s.node table s.text).bind fun v =>
          (advance T fuel v.2 A v.1 s).bind fun r =>
            if r.1 = true then scan_end_mark T fuel r.2.2 r.2.1
            else Run.ret (none, r.2.1, r.2.2)) := by
  have hinv : follow T T.node0 s.text = some s.node := by
    induction h with
    | start s0 => rfl
    | scan fuel table c s1 r _ hr ih => exact follow_scan T fuel table c s1 r ih hr
    | advance fuel table sym val s1 r _ hr ih =>
      obtain ⟨h1, h2⟩ := advance_node_text T fuel table sym val s1 r hr
      rw [h1, h2]; exact ih
    | scan_end fuel table s1 r _ hr ih =>
      obtain ⟨h1, h2⟩ := scan_end_node_text T fuel table s1 r hr
      rw [h1, h2]; exact ih
  refine ⟨hinv, ?_, ?_, ?_, ?_, ?_⟩
  · intro ht
    rw [ht] at hinv
    simp only [follow, Option.some.injEq] at hinv
    exact hinv.symm
  · intro fuel table c hn hsp
    rw [scan, if_pos ⟨hn, hsp⟩]
  · intro fuel table c next hskip hnext
    refine ⟨?_, (follow_append T T.node0 s.node s.text c hinv).trans hnext⟩
    rw [scan, if_neg hskip]
    simp only [hnext]
  · intro fuel table c A hskip hnext hacc
    refine ⟨hinv, ?_⟩
    rw [scan, if_neg hskip]
    simp only [hnext, hacc]
  · intro fuel table A hacc
    refine ⟨hinv, ?_⟩
    unfold scan_end
    simp only [hacc]

/-- Witness of C19: after `start()` and the characters ` `, `1`, `2` on the
expression tables the buffer is `12` (the skipped space is not in it) and it
drives the automaton from the initial node to the number node. -/
theorem reachable_text_follows_witness :
    Reachable exprTables
      ({ states := [0], symbols := [], values := [], node := 1, text := ['1', '2'] } :
        Calculator Nat Nat Sym Value) ∧
    follow exprTables exprTables.node0 ['1', '2'] = some 1 :=
  have hr : Reachable exprTables
      ({ states := [0], symbols := [], values := [], node := 1, text := ['1', '2'] } :
        Calculator Nat Nat Sym Value) :=
    Reachable.scan 1 table0 '2' _ (true, _, table0)
      (Reachable.scan 1 table0 '1' _
        (true, { states := [0], symbols := [], values := [], node := 1, text := ['1'] }, table0)
        (Reachable.scan 1 table0 ' ' (start exprTables engine0)
          (true, { states := [0], symbols := [], values := [], node := 0, text := [] }, table0)
          (Reachable.start engine0) (by decide))
        (by decide))
      (by decide)
  ⟨hr, (reachable_text_follows exprTables _ hr).1⟩

/-- C20: for a name `x` without a binding, `reduce_lookup(t, x)` returns the
number 0 (a normal return) and leaves `t` with the binding of `x` to 0 added,
every other binding and the `done` flag as before; for a name bound to `v` it
returns `v` and leaves `t` as it was. -/
theorem lookup_unbound_binds_zero (t : Table) (x : List Char) :
    (vars_find t.vars x = none →
      reduce_lookup t (some (Value.Ident x)) =
        Run.ret (some (Value.Num 0), { t with vars := vars_set t.vars x 0 }) ∧
      vars_find (vars_set t.vars x 0) x = some 0 ∧
      (∀ y, y ≠ x → vars_find (vars_set t.vars x 0) y = vars_find t.vars y) ∧
      ({ t with vars := vars_set t.vars x 0 } : Table).done = t.done) ∧
    (∀ v, vars_find t.vars x = some v →
      reduce_lookup t (some (Value.Ident x)) = Run.ret (some (Value.Num v), t)) := by
  constructor
  · intro h
    refine ⟨?_, vars_find_set_same t.vars x 0,
      fun y hy => vars_find_set_other t.vars x y 0 hy, rfl⟩
    simp only [reduce_lookup, vars_index, h]
  · intro v h
    simp only [reduce_lookup, vars_index, h]

/-- Witness of C20: in a context that binds only `y`, the lookup of `x` returns 0
and adds `x`; the lookup of `y` returns its value 5 and changes nothing. -/
theorem lookup_unbound_binds_zero_witness :
    (vars_find [(['y'], 5)] ['x'] = none ∧
      reduce_lookup { vars := [(['y'], 5)], done := false } (some (Value.Ident ['x'])) =
        Run.ret (some (Value.Num 0), { vars := [(['y'], 5), (['x'], 0)], done := false })) ∧
    (vars_find [(['y'], 5)] ['y'] = some 5 ∧
      reduce_lookup { vars := [(['y'], 5)], done := false } (some (Value.Ident ['y'])) =
        Run.ret (some (Value.Num 5), { vars := [(['y'], 5)], done := false })) :=
  ⟨⟨by decide,
      ((lookup_unbound_binds_zero { vars := [(['y'], 5)], done := false } ['x']).1
        (by decide)).1⟩,
    ⟨by decide,
      (lookup_unbound_binds_zero { vars := [(['y'], 5)], done := false } ['y']).2 5
        (by decide)⟩⟩

end Claims

end Calc
